import Mathlib

/-!
# MeMS: a shallow embedding of `q.c`

The C program keeps a circular doubly-linked *main chain* of `MainChainNode`s, each
owning a circular doubly-linked *sub-chain* of `SubChainNode`s (segments), plus
two global counters.  The embedding keeps the pointer structure:

* sub-chain nodes live in a heap `subs`; the pointer to the `i`-th node obtained
  from the C allocator is `some i`, and `none` is the C null pointer;
* main-chain nodes live at the addresses returned by `mmap`; `mains` maps an
  address to the node stored there;
* `mmap` is an external call: every operation that may call it takes the value the
  kernel returns as an argument, and `mappings` records every region obtained
  so far, with its address and the length that was asked for;
* `size_t` and pointer arithmetic is arithmetic modulo `2 ^ 64`, `int` is 32 bits;
* loops carry a fuel argument that bounds the number of times a loop body runs;
* every operation returns the new state, its C return value and the trace of
  external effects (system calls, calls of `free`, printed lines).
-/

namespace MeMS

/-! ## Constants and machine arithmetic -/

/-- The constant `PAGE_SIZE` of the source. -/
def PAGE_SIZE : Nat := 4096

/-- Modulus of `size_t` and of pointer arithmetic. -/
def WORD : Nat := 2 ^ 64

/-- The value `MAP_FAILED`, that is `(void *) -1`. -/
def MAP_FAILED : Nat := 2 ^ 64 - 1

/-- The C null pointer, as an address. -/
def NULL : Nat := 0

/-- Conversion of an `int` to `size_t` (reduction modulo `2 ^ 64`). -/
def toSizeT (i : Int) : Nat := (i % (2 : Int) ^ 64).toNat

/-- Conversion of a `size_t` to a 32-bit `int` (two's complement wrap-around). -/
def toInt32 (n : Nat) : Int :=
  if n % 2 ^ 32 < 2 ^ 31 then ((n % 2 ^ 32 : Nat) : Int) else ((n % 2 ^ 32 : Nat) : Int) - (2 : Int) ^ 32

/-- The statement `total_mapped_pages += d` for an `int` counter and a `size_t` value `d`:
the counter is converted to `size_t`, the sum is taken modulo `2 ^ 64` and
converted back to `int`. -/
def addPages (pages : Int) (d : Nat) : Int := toInt32 ((toSizeT pages + d) % WORD)

/-- The expression `(size + PAGE_SIZE - 1) / PAGE_SIZE` in `size_t` arithmetic. -/
def pagesFor (size : Nat) : Nat := ((size + PAGE_SIZE - 1) % WORD) / PAGE_SIZE

/-! ## Data model -/

/-- The enumeration `enum SegmentType`. -/
inductive SegmentType where
  | HOLE
  | PROCESS
deriving DecidableEq, Repr

/-- The record `struct SubChainNode`. -/
structure SubChainNode where
  start_address : Nat
  size : Nat
  type : SegmentType
  prev : Option Nat
  next : Option Nat
deriving DecidableEq, Repr

/-- The record `struct MainChainNode`. -/
structure MainChainNode where
  sub_chain : Option Nat
  prev : Nat
  next : Nat
deriving DecidableEq, Repr

/-- External effects of the program, in the order they happen. -/
inductive Event where
  | mmap (len res : Nat)
  | munmap (addr len : Nat)
  | free_sub (p : Option Nat)
  | free_main (p : Nat)
  | perror_mmap
  | print_initialized
  | print_finished
  | print_deallocated (size addr : Nat)
  | print_allocated_split (size addr : Nat)
  | print_allocated (size addr : Nat)
  | print_stats (pages : Int) (unused : Nat)
  | error_free_unallocated
deriving DecidableEq, Repr

/-- The globals of the program, its two heaps, and the regions obtained from `mmap`
(address and length as asked for) that have not been unmapped. -/
structure State where
  free_list : Nat
  start_mems_virtual_address : Nat
  total_mapped_pages : Int
  total_unused_memory : Nat
  mains : List (Nat × MainChainNode)
  subs : List SubChainNode
  mappings : List (Nat × Nat)
deriving DecidableEq, Repr

/-- The state at program start: the globals have their static initialisers. -/
def boot : State :=
  { free_list := NULL, start_mems_virtual_address := NULL, total_mapped_pages := 0,
    total_unused_memory := 0, mains := [], subs := [], mappings := [] }

deriving instance DecidableEq for Except

/-- Ways an operation can fail to return. -/
inductive Stop where
  | segv
  | exit1
  | fuel
deriving DecidableEq, Repr

/-- What an operation that returns leaves behind. -/
structure Outcome (α : Type) where
  st : State
  ret : α
  out : List Event
deriving DecidableEq, Repr

/-! ## Heap access -/

/-- Read the main-chain node stored at address `p`. -/
def loadMain (st : State) (p : Nat) : Option MainChainNode := st.mains.lookup p

/-- Write a main-chain node at address `p`. -/
def storeMain (st : State) (p : Nat) (mc : MainChainNode) : State :=
  { st with mains := (p, mc) :: st.mains.filter (fun e => e.1 != p) }

/-- Read the sub-chain node a pointer refers to. -/
def loadSub (heap : List SubChainNode) (p : Option Nat) : Option SubChainNode :=
  match p with
  | none => none
  | some i => heap[i]?

/-- Update fields of the sub-chain node a pointer refers to. -/
def updSub (heap : List SubChainNode) (p : Option Nat) (f : SubChainNode → SubChainNode) :
    Option (List SubChainNode) :=
  match p with
  | none => none
  | some i =>
    match heap[i]? with
    | none => none
    | some nd => some (heap.set i (f nd))

/-- The kernel-side effect of `munmap(addr, len)` on one mapped region. -/
def munmapRegion (addr len : Nat) (m : Nat × Nat) : List (Nat × Nat) :=
  (if m.1 < min (m.1 + m.2) addr then [(m.1, min (m.1 + m.2) addr - m.1)] else []) ++
  (if max m.1 (addr + len) < m.1 + m.2 then
    [(max m.1 (addr + len), m.1 + m.2 - max m.1 (addr + len))] else [])

/-- The kernel-side effect of `munmap(addr, len)`. -/
def munmap (maps : List (Nat × Nat)) (addr len : Nat) : List (Nat × Nat) :=
  (maps.map (munmapRegion addr len)).flatten

/-! ## The operations -/

/-- The loop test `subChainNode != currentNode->sub_chain` of the three inner loops;
`none` when `currentNode` cannot be read. -/
def subLoopTest (st : State) (cur : Nat) (sub : Option Nat) : Option Bool :=
  match loadMain st cur with
  | none => none
  | some mc => some (sub != mc.sub_chain)

/-- The function `add_segment`.  The C allocator is assumed to return a fresh node. -/
def add_segment (st : State) (main_chain : Nat) (size : Nat) : Except Stop State :=
  let n := st.subs.length
  match loadMain st main_chain with
  | none => .error .segv
  | some mc =>
    match mc.sub_chain with
    | none =>
      let nd : SubChainNode :=
        { start_address := st.start_mems_virtual_address, size := size, type := .HOLE,
          prev := some n, next := some n }
      .ok (storeMain { st with subs := st.subs ++ [nd] } main_chain { mc with sub_chain := some n })
    | some h =>
      match loadSub st.subs (some h) with
      | none => .error .segv
      | some hd =>
        match loadSub st.subs hd.prev with
        | none => .error .segv
        | some tl =>
          let nd : SubChainNode :=
            { start_address := (tl.start_address + tl.size) % WORD, size := size, type := .HOLE,
              prev := hd.prev, next := some h }
          let heap1 := st.subs ++ [nd]
          match updSub heap1 hd.prev (fun x => { x with next := some n }) with
          | none => .error .segv
          | some heap2 =>
            match updSub heap2 (some h) (fun x => { x with prev := some n }) with
            | none => .error .segv
            | some heap3 => .ok { st with subs := heap3 }

/-- The function `mems_init`; `m1` and `m2` are the results of its two `mmap` calls. -/
def mems_init (st : State) (m1 m2 : Nat) : Except Stop (Outcome Unit) :=
  if m1 = MAP_FAILED then .error .segv
  else
    let st1 : State := storeMain { st with free_list := m1, mappings := (m1, PAGE_SIZE) :: st.mappings } m1
      { sub_chain := none, prev := m1, next := m1 }
    if m2 = MAP_FAILED then .error .exit1
    else
      .ok { st := { st1 with start_mems_virtual_address := m2,
                              mappings := (m2, PAGE_SIZE) :: st1.mappings,
                              total_mapped_pages := 0, total_unused_memory := 0 },
            ret := (),
            out := [.mmap PAGE_SIZE m1, .mmap PAGE_SIZE m2, .print_initialized] }

/-- Inner loop of `mems_finish`, entered with the cursor `sub` on the chain of `cur`. -/
def finish_inner (fuel : Nat) (st : State) (out : List Event) (cur : Nat) (sub : Option Nat) :
    Except Stop (State × List Event) :=
  match subLoopTest st cur sub, fuel with
  | none, _ => .error .segv
  | some false, _ => .ok (st, out)
  | some true, 0 => .error .fuel
  | some true, fuel + 1 =>
    match loadSub st.subs sub with
    | none => .error .segv
    | some nd =>
      if nd.type = .PROCESS then
        finish_inner fuel { st with mappings := munmap st.mappings nd.start_address nd.size }
          (out ++ [.munmap nd.start_address nd.size,
                   .print_deallocated nd.size nd.start_address, .free_sub sub]) cur nd.next
      else
        finish_inner fuel st (out ++ [.free_sub sub]) cur nd.next

/-- Outer loop of `mems_finish`, entered with the cursor `cur`. -/
def finish_outer (fuel : Nat) (st : State) (out : List Event) (cur : Nat) :
    Except Stop (State × List Event) :=
  if cur = st.free_list then .ok (st, out)
  else
    match fuel with
    | 0 => .error .fuel
    | fuel + 1 =>
      match loadMain st cur with
      | none => .error .segv
      | some mc =>
        match finish_inner (fuel + 1) st out cur mc.sub_chain with
        | .error e => .error e
        | .ok (st1, out1) =>
          match loadMain st1 cur with
          | none => .error .segv
          | some mc1 => finish_outer fuel st1 (out1 ++ [.free_main cur]) mc1.next

/-- The function `mems_finish`. -/
def mems_finish (fuel : Nat) (st : State) : Except Stop (Outcome Unit) :=
  match finish_outer fuel st [] st.free_list with
  | .error e => .error e
  | .ok (st1, out) => .ok { st := st1, ret := (), out := out ++ [.print_finished] }

/-- Inner loop of `mems_malloc`; `some o` means the function returned from inside the loop,
`none` that the loop ran to its end. -/
def malloc_inner (size : Nat) (fuel : Nat) (st : State) (cur : Nat) (sub : Option Nat) :
    Except Stop (Option (Outcome Nat)) :=
  match subLoopTest st cur sub, fuel with
  | none, _ => .error .segv
  | some false, _ => .ok none
  | some true, 0 => .error .fuel
  | some true, fuel + 1 =>
    match loadSub st.subs sub with
    | none => .error .segv
    | some nd =>
      if nd.type = .HOLE ∧ nd.size ≥ size then
        if nd.size > (size + PAGE_SIZE) % WORD then
          let remaining_size := nd.size - size
          let n := st.subs.length
          match updSub st.subs sub (fun x => { x with size := size, type := .PROCESS }) with
          | none => .error .segv
          | some heap1 =>
            let newNode : SubChainNode :=
              { start_address := (nd.start_address + size) % WORD, size := remaining_size,
                type := .HOLE, prev := sub, next := nd.next }
            let heap2 := heap1 ++ [newNode]
            match updSub heap2 nd.next (fun x => { x with prev := some n }) with
            | none => .error .segv
            | some heap3 =>
              match updSub heap3 sub (fun x => { x with next := some n }) with
              | none => .error .segv
              | some heap4 =>
                .ok (some
                  { st := { st with subs := heap4,
                                    total_mapped_pages := addPages st.total_mapped_pages (pagesFor size),
                                    total_unused_memory := (st.total_unused_memory + remaining_size) % WORD },
                    ret := nd.start_address,
                    out := [.print_allocated_split size nd.start_address] })
        else
          match updSub st.subs sub (fun x => { x with type := .PROCESS }) with
          | none => .error .segv
          | some heap1 =>
            .ok (some
              { st := { st with subs := heap1,
                                total_mapped_pages := addPages st.total_mapped_pages (pagesFor nd.size),
                                total_unused_memory := (st.total_unused_memory + (WORD - nd.size % WORD)) % WORD },
                ret := nd.start_address,
                out := [.print_allocated size nd.start_address] })
      else malloc_inner size fuel st cur nd.next

/-- Outer loop of `mems_malloc`; `.inl o` means the function returned from inside the
loops, `.inr cur` that the loop ended with the cursor `currentNode = cur`. -/
def malloc_outer (size : Nat) (fuel : Nat) (st : State) (cur : Nat) :
    Except Stop (Outcome Nat ⊕ Nat) :=
  if cur = st.free_list then .ok (.inr cur)
  else
    match fuel with
    | 0 => .error .fuel
    | fuel + 1 =>
      match loadMain st cur with
      | none => .error .segv
      | some mc =>
        match malloc_inner size (fuel + 1) st cur mc.sub_chain with
        | .error e => .error e
        | .ok (some o) => .ok (.inl o)
        | .ok none => malloc_outer size fuel st mc.next

/-- The function `mems_malloc`; `mm` is the value `mmap` returns if it is called. -/
def mems_malloc (fuel : Nat) (st : State) (size : Nat) (mm : Nat) : Except Stop (Outcome Nat) :=
  match malloc_outer size fuel st st.free_list with
  | .error e => .error e
  | .ok (.inl o) => .ok o
  | .ok (.inr currentNode) =>
    if mm = MAP_FAILED then
      .ok { st := st, ret := NULL, out := [.mmap size mm, .perror_mmap] }
    else
      match add_segment { st with mappings := (mm, size) :: st.mappings } currentNode size with
      | .error e => .error e
      | .ok st1 =>
        .ok { st := { st1 with total_mapped_pages := addPages st1.total_mapped_pages (pagesFor size),
                               total_unused_memory := (st1.total_unused_memory + size) % WORD },
              ret := mm,
              out := [.mmap size mm, .print_allocated size mm] }

/-- The function `mems_print_stats`. -/
def mems_print_stats (st : State) : Outcome Unit :=
  { st := st, ret := (), out := [.print_stats st.total_mapped_pages st.total_unused_memory] }

/-- The function `mems_get`. -/
def mems_get (st : State) (v_ptr : Nat) : Outcome Nat :=
  { st := st, ret := v_ptr, out := [] }

/-- Inner loop of `mems_free`; `true` means the function returned from inside the loop. -/
def free_inner (v_ptr : Nat) (fuel : Nat) (st : State) (cur : Nat) (sub : Option Nat) :
    Except Stop Bool :=
  match subLoopTest st cur sub, fuel with
  | none, _ => .error .segv
  | some false, _ => .ok false
  | some true, 0 => .error .fuel
  | some true, fuel + 1 =>
    match loadSub st.subs sub with
    | none => .error .segv
    | some nd =>
      if v_ptr = nd.start_address ∧ nd.type = .PROCESS then .ok true
      else free_inner v_ptr fuel st cur nd.next

/-- The `while (1)` loop of `mems_free`; `true` means the function returned from inside
the loops, `false` that the loop was left by `break`. -/
def free_outer (v_ptr : Nat) (fuel : Nat) (st : State) (cur : Nat) : Except Stop Bool :=
  match fuel with
  | 0 => .error .fuel
  | fuel + 1 =>
    match loadMain st cur with
    | none => .error .segv
    | some mc =>
      match free_inner v_ptr (fuel + 1) st cur mc.sub_chain with
      | .error e => .error e
      | .ok true => .ok true
      | .ok false =>
        if mc.next = st.free_list then .ok false
        else free_outer v_ptr fuel st mc.next

/-- The function `mems_free`. -/
def mems_free (fuel : Nat) (st : State) (v_ptr : Nat) : Except Stop (Outcome Unit) :=
  match free_outer v_ptr fuel st st.free_list with
  | .error e => .error e
  | .ok true => .ok { st := st, ret := (), out := [] }
  | .ok false => .ok { st := st, ret := (), out := [.error_free_unallocated] }

/-! ## Reading the chains -/

/-- Nodes of a sub-chain met by following `next` from `cur` until `head` comes up again. -/
def subChainFrom (heap : List SubChainNode) (head : Nat) : Nat → Nat → List SubChainNode
  | 0, _ => []
  | fuel + 1, cur =>
    match heap[cur]? with
    | none => []
    | some nd =>
      nd :: (if nd.next = some head then []
             else match nd.next with
               | none => []
               | some nx => subChainFrom heap head fuel nx)

/-- The segments of a main-chain node, in traversal order from the head of its sub-chain. -/
def subChainOf (st : State) (mc : MainChainNode) : List SubChainNode :=
  match mc.sub_chain with
  | none => []
  | some h => subChainFrom st.subs h st.subs.length h

/-- Main-chain nodes met by following `next` from `cur` until `free_list` comes up again. -/
def mainChainFrom (st : State) : Nat → Nat → List MainChainNode
  | 0, _ => []
  | fuel + 1, cur =>
    match loadMain st cur with
    | none => []
    | some mc => mc :: (if mc.next = st.free_list then [] else mainChainFrom st fuel mc.next)

/-- The main chain, in traversal order from `free_list`. -/
def mainChain (st : State) : List MainChainNode := mainChainFrom st st.mains.length st.free_list

/-- All segments, in scan order: main-chain order, then sub-chain order. -/
def segments (st : State) : List SubChainNode := ((mainChain st).map (subChainOf st)).flatten

/-! ## The environment and the reachable states -/

/-- User-space addresses lie below this bound. -/
def ADDR_LIMIT : Nat := 2 ^ 63

/-- What the kernel guarantees about the value `res` it returns for an anonymous `mmap` of
`len` bytes while the regions `maps` are mapped: either the call fails, or the new region
lies in user space and meets no region that is still mapped. -/
def MmapOk (maps : List (Nat × Nat)) (len res : Nat) : Prop :=
  res = MAP_FAILED ∨ (res + len ≤ ADDR_LIMIT ∧ ∀ m ∈ maps, res + len ≤ m.1 ∨ m.1 + m.2 ≤ res)

instance (maps : List (Nat × Nat)) (len res : Nat) : Decidable (MmapOk maps len res) := by
  unfold MmapOk; infer_instance

/-- States the program can be in after `mems_init` at program start followed by any
sequence of calls of the other operations. -/
inductive Reachable : State → Prop where
  | init (m1 m2 : Nat) (o : Outcome Unit) :
      MmapOk [] PAGE_SIZE m1 → MmapOk [(m1, PAGE_SIZE)] PAGE_SIZE m2 →
      mems_init boot m1 m2 = .ok o → Reachable o.st
  | malloc (fuel : Nat) (st : State) (size mm : Nat) (o : Outcome Nat) :
      Reachable st → MmapOk st.mappings size mm →
      mems_malloc fuel st size mm = .ok o → Reachable o.st
  | free (fuel : Nat) (st : State) (v_ptr : Nat) (o : Outcome Unit) :
      Reachable st → mems_free fuel st v_ptr = .ok o → Reachable o.st
  | print_stats (st : State) : Reachable st → Reachable (mems_print_stats st).st
  | get (st : State) (v_ptr : Nat) : Reachable st → Reachable (mems_get st v_ptr).st
  | finish (fuel : Nat) (st : State) (o : Outcome Unit) :
      Reachable st → mems_finish fuel st = .ok o → Reachable o.st

/-! ## Example states -/

/-- After `mems_init` with the two base pages at `0x1000` and `0x2000`. -/
def ex0 : State :=
  { free_list := 4096, start_mems_virtual_address := 8192, total_mapped_pages := 0,
    total_unused_memory := 0,
    mains := [(4096, { sub_chain := none, prev := 4096, next := 4096 })],
    subs := [], mappings := [(8192, 4096), (4096, 4096)] }

/-- After `ex0` and `mems_malloc(100)` with `mmap` returning `0x3000`. -/
def ex1 : State :=
  { ex0 with
    total_mapped_pages := 1, total_unused_memory := 100,
    mains := [(4096, { sub_chain := some 0, prev := 4096, next := 4096 })],
    subs := [{ start_address := 8192, size := 100, type := .HOLE, prev := some 0, next := some 0 }],
    mappings := [(12288, 100), (8192, 4096), (4096, 4096)] }

/-- After `ex1` and `mems_malloc(50)` with `mmap` returning `0x4000`. -/
def ex2 : State :=
  { ex1 with
    total_mapped_pages := 2, total_unused_memory := 150,
    subs := [{ start_address := 8192, size := 100, type := .HOLE, prev := some 1, next := some 1 },
             { start_address := 8292, size := 50, type := .HOLE, prev := some 0, next := some 0 }],
    mappings := [(16384, 50), (12288, 100), (8192, 4096), (4096, 4096)] }

/-- After `ex2` and `mems_malloc(90)` with `mmap` returning `0x5000`. -/
def ex3 : State :=
  { ex2 with
    total_mapped_pages := 3, total_unused_memory := 240,
    subs := [{ start_address := 8192, size := 100, type := .HOLE, prev := some 2, next := some 1 },
             { start_address := 8292, size := 50, type := .HOLE, prev := some 0, next := some 2 },
             { start_address := 8342, size := 90, type := .HOLE, prev := some 1, next := some 0 }],
    mappings := [(20480, 90), (16384, 50), (12288, 100), (8192, 4096), (4096, 4096)] }

/-- After `ex0` and `mems_malloc(10000)` with `mmap` returning `0x3000`. -/
def exA : State :=
  { ex0 with
    total_mapped_pages := 3, total_unused_memory := 10000,
    mains := [(4096, { sub_chain := some 0, prev := 4096, next := 4096 })],
    subs := [{ start_address := 8192, size := 10000, type := .HOLE, prev := some 0, next := some 0 }],
    mappings := [(12288, 10000), (8192, 4096), (4096, 4096)] }

/-- After `exA` and `mems_malloc(100)` with `mmap` returning `0x6000`. -/
def exB : State :=
  { exA with
    total_mapped_pages := 4, total_unused_memory := 10100,
    subs := [{ start_address := 8192, size := 10000, type := .HOLE, prev := some 1, next := some 1 },
             { start_address := 18192, size := 100, type := .HOLE, prev := some 0, next := some 0 }],
    mappings := [(24576, 100), (12288, 10000), (8192, 4096), (4096, 4096)] }

/-- After `ex0` and `mems_malloc(2 ^ 43)` with `mmap` returning `2 ^ 44`. -/
def exBig : State :=
  { ex0 with
    total_mapped_pages := -2147483648, total_unused_memory := 8796093022208,
    mains := [(4096, { sub_chain := some 0, prev := 4096, next := 4096 })],
    subs := [{ start_address := 8192, size := 8796093022208, type := .HOLE,
               prev := some 0, next := some 0 }],
    mappings := [(17592186044416, 8796093022208), (8192, 4096), (4096, 4096)] }

/-- A well-formed state with one allocated segment of 100 bytes at `0x2000`. -/
def exP : State :=
  { ex0 with
    total_mapped_pages := 1, total_unused_memory := 0,
    mains := [(4096, { sub_chain := some 0, prev := 4096, next := 4096 })],
    subs := [{ start_address := 8192, size := 100, type := .PROCESS, prev := some 0, next := some 0 }],
    mappings := [(12288, 100), (8192, 4096), (4096, 4096)] }

/-- After `ex0` and `mems_malloc(8192)` with `mmap` returning `0x3000`. -/
def exPg : State :=
  { ex0 with
    total_mapped_pages := 2, total_unused_memory := 8192,
    mains := [(4096, { sub_chain := some 0, prev := 4096, next := 4096 })],
    subs := [{ start_address := 8192, size := 8192, type := .HOLE, prev := some 0, next := some 0 }],
    mappings := [(12288, 8192), (8192, 4096), (4096, 4096)] }

/-- A well-formed state with an allocated segment of 100 bytes at `0x2000` followed by a
hole of 50 bytes. -/
def exQ : State :=
  { ex0 with
    total_mapped_pages := 1, total_unused_memory := 50,
    mains := [(4096, { sub_chain := some 0, prev := 4096, next := 4096 })],
    subs := [{ start_address := 8192, size := 100, type := .PROCESS, prev := some 1, next := some 1 },
             { start_address := 8292, size := 50, type := .HOLE, prev := some 0, next := some 0 }],
    mappings := [(12288, 150), (8192, 4096), (4096, 4096)] }

/-! ## Well-formed sub-chains -/

/-- The list `cyc` holds, from the head on, the pointers of a circular doubly-linked
sub-chain in `heap`: no pointer occurs twice, every pointer refers to a node, `next` of a
node is the pointer after it and `next` of the last node is the first pointer, `prev`
of a node is the pointer before it and `prev` of the first node is the last pointer. -/
def IsRing (heap : List SubChainNode) (cyc : List Nat) : Prop :=
  cyc.Nodup ∧ ∀ i p, cyc[i]? = some p → ∃ nd, heap[p]? = some nd ∧
    nd.next = cyc[if i + 1 = cyc.length then 0 else i + 1]? ∧
    nd.prev = cyc[if i = 0 then cyc.length - 1 else i - 1]?

/-- The sub-chain of the main-chain node `mc` is empty (`cyc = []` and a null `sub_chain`)
or a ring whose first pointer is `sub_chain`. -/
def SubChainWF (heap : List SubChainNode) (mc : MainChainNode) (cyc : List Nat) : Prop :=
  IsRing heap cyc ∧ mc.sub_chain = cyc.head?

/-- The node at `q` satisfies `q->next->prev == q` and `q->prev->next == q`. -/
def Linked (heap : List SubChainNode) (q : Nat) : Prop :=
  ∃ nd nx pv, heap[q]? = some nd ∧
    loadSub heap nd.next = some nx ∧ nx.prev = some q ∧
    loadSub heap nd.prev = some pv ∧ pv.next = some q

/-! ## The shape of reachable states -/

/-- The part of a segment that the pointer updates leave alone. -/
def view (x : SubChainNode) : Nat × Nat × SegmentType := (x.start_address, x.size, x.type)

/-- Segments of the given sizes laid end to end from address `a`, all of type `HOLE`. -/
def layout : Nat → List Nat → List (Nat × Nat × SegmentType)
  | _, [] => []
  | a, s :: ss => (a, s, .HOLE) :: layout (a + s) ss

/-- Total length of a list of mapped regions. -/
def lens (maps : List (Nat × Nat)) : Nat := (maps.map (fun m => m.2)).sum

/-- Mapped regions lie in user space and are pairwise disjoint. -/
def MapsOk : List (Nat × Nat) → Prop
  | [] => True
  | m :: ms => (m.1 + m.2 ≤ ADDR_LIMIT ∧ ∀ k ∈ ms, m.1 + m.2 ≤ k.1 ∨ k.1 + k.2 ≤ m.1) ∧ MapsOk ms

/-- The addresses covered by a list of regions. -/
def cover : List (Nat × Nat) → Finset Nat
  | [] => ∅
  | m :: ms => Finset.Ico m.1 (m.1 + m.2) ∪ cover ms

/-- The shape every reachable state has: one main-chain node linked to itself; the
sub-chain heap is one ring in allocation order, all segments are holes laid end to end
from `start_mems_virtual_address`; the unused counter is the sum of their sizes; the
mapped regions are disjoint and account for the base pages and every segment. -/
structure Inv (st : State) : Prop where
  main : loadMain st st.free_list =
    some ⟨if st.subs.length = 0 then none else some 0, st.free_list, st.free_list⟩
  ring : ∀ i nd, st.subs[i]? = some nd →
    nd.next = some (if i + 1 = st.subs.length then 0 else i + 1) ∧
    nd.prev = some (if i = 0 then st.subs.length - 1 else i - 1)
  data : st.subs.map view = layout st.start_mems_virtual_address (st.subs.map (fun x => x.size))
  unused : st.total_unused_memory = (st.subs.map (fun x => x.size)).sum
  maps : MapsOk st.mappings
  base : st.start_mems_virtual_address + PAGE_SIZE ≤ ADDR_LIMIT
  budget : (st.subs.map (fun x => x.size)).sum + 2 * PAGE_SIZE ≤ lens st.mappings

/-! ## Behaviour of the loops -/

theorem malloc_outer_self (size fuel : Nat) (st : State) :
    malloc_outer size fuel st st.free_list = .ok (.inr st.free_list) := by
  unfold malloc_outer; simp

theorem finish_outer_self (fuel : Nat) (st : State) (out : List Event) :
    finish_outer fuel st out st.free_list = .ok (st, out) := by
  unfold finish_outer; simp

theorem mems_finish_eq (fuel : Nat) (st : State) :
    mems_finish fuel st = .ok { st := st, ret := (), out := [.print_finished] } := by
  simp [mems_finish, finish_outer_self]

theorem free_inner_self (v_ptr fuel : Nat) (st : State) (cur : Nat) (mc : MainChainNode)
    (h : loadMain st cur = some mc) :
    free_inner v_ptr fuel st cur mc.sub_chain = .ok false := by
  unfold free_inner; simp [h, subLoopTest]

theorem mems_free_state (fuel : Nat) (st : State) (v_ptr : Nat) (o : Outcome Unit)
    (h : mems_free fuel st v_ptr = .ok o) : o.st = st := by
  unfold mems_free at h
  split at h <;> simp at h <;> rw [← h]

theorem mems_free_self_loop (fuel : Nat) (st : State) (v_ptr : Nat) (mc : MainChainNode)
    (h : loadMain st st.free_list = some mc) (hn : mc.next = st.free_list) :
    mems_free (fuel + 1) st v_ptr =
      .ok { st := st, ret := (), out := [.error_free_unallocated] } := by
  simp [mems_free, free_outer, h, free_inner_self v_ptr (fuel + 1) st st.free_list mc h, hn]

theorem mems_malloc_failed (fuel : Nat) (st : State) (size : Nat) :
    mems_malloc fuel st size MAP_FAILED =
      .ok { st := st, ret := NULL, out := [.mmap size MAP_FAILED, .perror_mmap] } := by
  simp [mems_malloc, malloc_outer_self]

theorem mems_malloc_mapped (fuel : Nat) (st : State) (size mm : Nat) (hmm : mm ≠ MAP_FAILED) :
    mems_malloc fuel st size mm =
      match add_segment { st with mappings := (mm, size) :: st.mappings } st.free_list size with
      | .error e => .error e
      | .ok st1 =>
        .ok { st := { st1 with total_mapped_pages := addPages st1.total_mapped_pages (pagesFor size),
                               total_unused_memory := (st1.total_unused_memory + size) % WORD },
              ret := mm,
              out := [.mmap size mm, .print_allocated size mm] } := by
  simp [mems_malloc, malloc_outer_self, hmm]

/-! ## Mapped regions and layouts -/

theorem mem_cover (ms : List (Nat × Nat)) (x : Nat) :
    x ∈ cover ms ↔ ∃ k ∈ ms, k.1 ≤ x ∧ x < k.1 + k.2 := by
  induction ms with
  | nil => simp [cover]
  | cons m ms ih => simp [cover, ih]

theorem cover_card (ms : List (Nat × Nat)) (h : MapsOk ms) :
    (cover ms).card = lens ms ∧ cover ms ⊆ Finset.range ADDR_LIMIT := by
  induction ms with
  | nil => simp [cover, lens]
  | cons m ms ih =>
    obtain ⟨⟨hb, hd⟩, hms⟩ := h
    obtain ⟨hc, hs⟩ := ih hms
    have hdis : Disjoint (Finset.Ico m.1 (m.1 + m.2)) (cover ms) := by
      rw [Finset.disjoint_left]
      intro x hx hx2
      rw [mem_cover] at hx2
      obtain ⟨k, hk, h1, h2⟩ := hx2
      rw [Finset.mem_Ico] at hx
      rcases hd k hk with h3 | h3 <;> omega
    constructor
    · rw [cover, Finset.card_union_of_disjoint hdis, hc, Nat.card_Ico]
      simp [lens]
    · intro x hx
      rw [cover, Finset.mem_union] at hx
      rcases hx with hx | hx
      · rw [Finset.mem_Ico] at hx
        rw [Finset.mem_range]; omega
      · exact hs hx

theorem lens_le (ms : List (Nat × Nat)) (h : MapsOk ms) : lens ms ≤ ADDR_LIMIT := by
  obtain ⟨hc, hs⟩ := cover_card ms h
  have := Finset.card_le_card hs
  rw [hc, Finset.card_range] at this
  exact this

theorem layout_append (a : Nat) (ss : List Nat) (s : Nat) :
    layout a (ss ++ [s]) = layout a ss ++ [(a + ss.sum, s, .HOLE)] := by
  induction ss generalizing a with
  | nil => simp [layout]
  | cons x xs ih => simp [layout, ih, Nat.add_assoc]

theorem layout_last (l : List SubChainNode) (a : Nat) (tl : SubChainNode)
    (h : l.map view = layout a (l.map (fun x => x.size))) (ht : l.getLast? = some tl) :
    tl.start_address + tl.size = a + (l.map (fun x => x.size)).sum := by
  induction l generalizing a with
  | nil => simp at ht
  | cons x xs ih =>
    simp only [List.map_cons, layout, List.cons.injEq] at h
    obtain ⟨hx, hxs⟩ := h
    cases xs with
    | nil =>
      simp at ht
      subst ht
      simp [view] at hx
      simp [hx]
    | cons y ys =>
      rw [List.getLast?_cons_cons] at ht
      have := ih (a + x.size) hxs ht
      simp only [List.map_cons, List.sum_cons] at this ⊢
      omega

theorem layout_holes (l : List SubChainNode) (a : Nat)
    (h : l.map view = layout a (l.map (fun x => x.size))) : ∀ nd ∈ l, nd.type = .HOLE := by
  induction l generalizing a with
  | nil => simp
  | cons x xs ih =>
    simp only [List.map_cons, layout, List.cons.injEq] at h
    obtain ⟨hx, hxs⟩ := h
    intro nd hnd
    rcases List.mem_cons.1 hnd with rfl | hnd
    · simp [view] at hx; exact hx.2
    · exact ih _ hxs nd hnd

theorem layout_chain (l : List SubChainNode) (a : Nat)
    (h : l.map view = layout a (l.map (fun x => x.size))) :
    List.Chain' (fun x y : SubChainNode => y.start_address = x.start_address + x.size) l ∧
      ∀ x ∈ l.head?, x.start_address = a := by
  induction l generalizing a with
  | nil => simp
  | cons x xs ih =>
    simp only [List.map_cons, layout, List.cons.injEq] at h
    obtain ⟨hx, hxs⟩ := h
    obtain ⟨hc, hh⟩ := ih _ hxs
    simp [view] at hx
    refine ⟨?_, by simp [hx.1]⟩
    rw [List.chain'_cons']
    refine ⟨?_, hc⟩
    intro y hy
    rw [hh y hy, hx.1]

theorem map_set_same {β : Type} (g : SubChainNode → β) (heap : List SubChainNode) (i : Nat)
    (x y : SubChainNode) (h : heap[i]? = some x) (hg : g y = g x) :
    (heap.set i y).map g = heap.map g := by
  apply List.ext_getElem?
  intro j
  rw [List.getElem?_map, List.getElem?_map, List.getElem?_set]
  by_cases hij : i = j
  · subst hij
    have hlt : i < heap.length := by
      by_contra hc
      rw [List.getElem?_eq_none (by omega)] at h
      cases h
    simp [hlt, h, hg]
  · simp [hij]

theorem loadMain_storeMain (st : State) (p : Nat) (mc : MainChainNode) :
    loadMain (storeMain st p mc) p = some mc := by
  simp [loadMain, storeMain, List.lookup]

theorem Inv.no_wrap {st : State} (hI : Inv st) :
    st.start_mems_virtual_address + (st.subs.map (fun x => x.size)).sum < WORD := by
  have h1 := lens_le _ hI.maps
  have h2 := hI.budget
  have h3 := hI.base
  simp only [ADDR_LIMIT, PAGE_SIZE, WORD] at *
  omega

theorem add_segment_spec (st : State) (size : Nat) (hI : Inv st) :
    ∃ st1, add_segment st st.free_list size = .ok st1 ∧
      st1.free_list = st.free_list ∧
      st1.start_mems_virtual_address = st.start_mems_virtual_address ∧
      st1.total_mapped_pages = st.total_mapped_pages ∧
      st1.total_unused_memory = st.total_unused_memory ∧
      st1.mappings = st.mappings ∧
      loadMain st1 st.free_list = some ⟨some 0, st.free_list, st.free_list⟩ ∧
      st1.subs.length = st.subs.length + 1 ∧
      st1.subs.map view = st.subs.map view ++
        [(st.start_mems_virtual_address + (st.subs.map (fun x => x.size)).sum, size, .HOLE)] ∧
      (∀ i nd, st1.subs[i]? = some nd →
        nd.next = some (if i + 1 = st.subs.length + 1 then 0 else i + 1) ∧
        nd.prev = some (if i = 0 then st.subs.length else i - 1)) := by
  by_cases hn : st.subs.length = 0
  · have hnil : st.subs = [] := List.length_eq_zero.1 hn
    have hm := hI.main
    simp only [hn, if_true] at hm
    have h : add_segment st st.free_list size = .ok
        (storeMain { st with subs := st.subs ++
          [{ start_address := st.start_mems_virtual_address, size := size, type := .HOLE,
             prev := some st.subs.length, next := some st.subs.length }] } st.free_list
          { sub_chain := some st.subs.length, prev := st.free_list, next := st.free_list }) := by
      simp only [add_segment, hm]
    refine ⟨_, h, rfl, rfl, rfl, rfl, rfl, ?_, ?_, ?_, ?_⟩
    · rw [hn]; exact loadMain_storeMain _ _ _
    · simp [storeMain, hnil]
    · simp [storeMain, hnil, view]
    · intro i nd h
      simp only [storeMain, hnil, List.nil_append, List.length_nil] at h ⊢
      cases i with
      | zero => simp at h; subst h; simp
      | succ j => simp at h
  · have hpos : 0 < st.subs.length := Nat.pos_of_ne_zero hn
    have hm := hI.main
    simp only [hn, if_false] at hm
    obtain ⟨hd, hhd⟩ : ∃ hd, st.subs[0]? = some hd := ⟨st.subs[0], by simp [hpos]⟩
    obtain ⟨tl, htl⟩ : ∃ tl, st.subs[st.subs.length - 1]? = some tl :=
      ⟨st.subs[st.subs.length - 1], by simp [hpos]⟩
    have hprev : hd.prev = some (st.subs.length - 1) := by
      have := (hI.ring 0 hd hhd).2
      simpa using this
    have hlast : st.subs.getLast? = some tl := by
      rw [List.getLast?_eq_getElem?]; exact htl
    have hend := layout_last st.subs _ tl hI.data hlast
    have hnw := hI.no_wrap
    have e1 : (st.subs ++ [(⟨(tl.start_address + tl.size) % WORD, size, .HOLE, hd.prev, some 0⟩ :
        SubChainNode)])[st.subs.length - 1]? = some tl := by
      rw [List.getElem?_append_left (by omega)]; exact htl
    obtain ⟨hd2, hhd2⟩ : ∃ hd2, ((st.subs ++ [(⟨(tl.start_address + tl.size) % WORD, size, .HOLE,
        hd.prev, some 0⟩ : SubChainNode)]).set (st.subs.length - 1)
        { tl with next := some st.subs.length })[0]? = some hd2 :=
      ⟨_, List.getElem?_eq_getElem (by simp)⟩
    have h : add_segment st st.free_list size = .ok { st with subs :=
        (((st.subs ++ [(⟨(tl.start_address + tl.size) % WORD, size, .HOLE, hd.prev, some 0⟩ :
          SubChainNode)]).set (st.subs.length - 1) { tl with next := some st.subs.length }).set 0
          { hd2 with prev := some st.subs.length }) } := by
      simp only [add_segment, hm, loadSub, hhd, updSub]
      simp only [hprev] at e1 hhd2 ⊢
      simp only [htl, e1, hhd2]
    refine ⟨_, h, rfl, rfl, rfl, rfl, rfl, hm, by simp, ?_, ?_⟩
    · show List.map view (List.set _ _ _) = _
      rw [map_set_same view _ 0 hd2 { hd2 with prev := some st.subs.length } hhd2 rfl,
        map_set_same view _ _ tl { tl with next := some st.subs.length } e1 rfl]
      simp only [List.map_append, List.map_cons, List.map_nil, view]
      rw [hend, Nat.mod_eq_of_lt hnw]
    · intro i node hnode
      simp only [] at hnode
      rw [List.getElem?_set] at hnode hhd2
      have htr := hI.ring _ _ htl
      have hhr := hI.ring _ _ hhd
      by_cases hi0 : 0 = i
      · subst hi0
        simp only [if_true, List.length_set, List.length_append, List.length_singleton] at hnode
        rw [if_pos (by omega)] at hnode
        cases hnode
        by_cases h1 : st.subs.length - 1 = 0
        · simp only [h1, if_true, List.length_append, List.length_singleton] at hhd2
          rw [if_pos (by omega)] at hhd2
          cases hhd2
          constructor <;> simp only [Option.some.injEq] <;> split_ifs <;> omega
        · rw [if_neg h1, List.getElem?_append_left hpos, hhd] at hhd2
          cases hhd2
          dsimp only
          rw [hhr.1]
          constructor <;> simp only [Option.some.injEq] <;> split_ifs <;> omega
      · rw [if_neg hi0, List.getElem?_set] at hnode
        by_cases h1 : st.subs.length - 1 = i
        · rw [if_pos h1, if_pos (by simp; omega)] at hnode
          cases hnode
          dsimp only
          rw [htr.2]
          constructor <;> simp only [Option.some.injEq] <;> split_ifs <;> omega
        · rw [if_neg h1, List.getElem?_append] at hnode
          by_cases h2 : i < st.subs.length
          · rw [if_pos h2] at hnode
            have := hI.ring _ _ hnode
            rw [this.1, this.2]
            constructor <;> simp only [Option.some.injEq] <;> split_ifs <;> omega
          · rw [if_neg h2] at hnode
            have h3 : i = st.subs.length := by
              by_contra hc
              rw [List.getElem?_eq_none (by simp; omega)] at hnode
              cases hnode
            subst h3
            simp at hnode
            subst hnode
            dsimp only
            rw [hprev]
            constructor <;> simp only [Option.some.injEq] <;> split_ifs <;> omega

/-! ## Preservation of the shape -/

theorem map_size_eq_view (l : List SubChainNode) :
    l.map (fun x => x.size) = (l.map view).map (fun v => v.2.1) := by
  simp [view]

theorem mems_init_spec (m1 m2 : Nat) (o : Outcome Unit)
    (h1 : MmapOk [] PAGE_SIZE m1) (h2 : MmapOk [(m1, PAGE_SIZE)] PAGE_SIZE m2)
    (h : mems_init boot m1 m2 = .ok o) : Inv o.st := by
  unfold mems_init at h
  split_ifs at h with hm1 hm2
  simp only [Except.ok.injEq] at h
  subst h
  rcases h1 with h1 | h1
  · exact absurd h1 hm1
  rcases h2 with h2 | h2
  · exact absurd h2 hm2
  refine ⟨?_, ?_, ?_, ?_, ?_, ?_, ?_⟩
  · simp [loadMain, storeMain, boot, List.lookup]
  · intro i nd hi
    simp [storeMain, boot] at hi
  · simp [storeMain, boot, layout]
  · simp [storeMain, boot]
  · simp only [storeMain, boot, MapsOk]
    refine ⟨⟨h2.1, ?_⟩, ⟨h1.1, ?_⟩, trivial⟩
    · intro k hk
      exact h2.2 k hk
    · intro k hk
      simp at hk
  · exact h2.1
  · simp [storeMain, boot, lens]
    omega

theorem mems_malloc_spec (fuel : Nat) (st : State) (size mm : Nat) (hI : Inv st)
    (hok : MmapOk st.mappings size mm) (hmm : mm ≠ MAP_FAILED) :
    ∃ o, mems_malloc fuel st size mm = .ok o ∧ Inv o.st ∧ o.ret = mm ∧
      o.out = [.mmap size mm, .print_allocated size mm] ∧
      o.st.subs.map view = st.subs.map view ++
        [(st.start_mems_virtual_address + (st.subs.map (fun x => x.size)).sum, size, .HOLE)] ∧
      o.st.total_unused_memory = st.total_unused_memory + size ∧
      o.st.total_mapped_pages = addPages st.total_mapped_pages (pagesFor size) ∧
      o.st.mappings = (mm, size) :: st.mappings ∧
      o.st.free_list = st.free_list ∧
      o.st.start_mems_virtual_address = st.start_mems_virtual_address := by
  rcases hok with hok | hok
  · exact absurd hok hmm
  have hI0 : Inv { st with mappings := (mm, size) :: st.mappings } := by
    refine ⟨hI.main, hI.ring, hI.data, hI.unused, ⟨hok, hI.maps⟩, hI.base, ?_⟩
    have := hI.budget
    simp only [lens, List.map_cons, List.sum_cons] at this ⊢
    omega
  obtain ⟨st1, hadd, hfl, hstart, hpages, hunused, hmaps, hmain, hlen, hview, hring⟩ :=
    add_segment_spec _ size hI0
  have hsizes : st1.subs.map (fun x => x.size) = st.subs.map (fun x => x.size) ++ [size] := by
    rw [map_size_eq_view, hview]
    simp [view]
  have hbud : (st.subs.map (fun x => x.size)).sum + size + 2 * PAGE_SIZE ≤ ADDR_LIMIT := by
    have h1 := lens_le _ hI0.maps
    have h2 := hI.budget
    simp only [lens, List.map_cons, List.sum_cons] at h1 h2
    omega
  have hmp := mems_malloc_mapped fuel st size mm hmm
  simp only [] at hadd hfl hstart hpages hunused hmaps hmain hlen hview hring
  rw [hadd] at hmp
  refine ⟨_, hmp, ?_, rfl, rfl, hview, ?_, ?_, hmaps, hfl, hstart⟩
  · refine ⟨?_, ?_, ?_, ?_, ?_, ?_, ?_⟩
    · show loadMain st1 st1.free_list = _
      rw [hfl, hmain, hlen]
      simp
    · intro i nd hi
      have := hring i nd hi
      show _ ∧ _
      rw [this.1, this.2, hlen]
      simp
    · show st1.subs.map view = layout st1.start_mems_virtual_address _
      rw [hsizes, layout_append, hview, hstart, hI.data]
    · show (st1.total_unused_memory + size) % WORD = _
      rw [hsizes, hunused, hI.unused, Nat.mod_eq_of_lt]
      · simp
      · simp only [ADDR_LIMIT, PAGE_SIZE, WORD] at hbud ⊢
        omega
    · show MapsOk st1.mappings
      rw [hmaps]
      exact ⟨hok, hI.maps⟩
    · show st1.start_mems_virtual_address + _ ≤ _
      rw [hstart]
      exact hI.base
    · show _ ≤ lens st1.mappings
      rw [hsizes, hmaps]
      have := hI.budget
      simp only [lens, List.map_cons, List.sum_cons, List.sum_append, List.map_append,
        List.sum_nil, List.map_nil] at this ⊢
      omega
  · show (st1.total_unused_memory + size) % WORD = _
    rw [hunused, hI.unused, Nat.mod_eq_of_lt]
    simp only [ADDR_LIMIT, PAGE_SIZE, WORD] at hbud ⊢
    omega
  · show addPages st1.total_mapped_pages _ = _
    rw [hpages]

theorem mems_free_spec (fuel : Nat) (st : State) (v_ptr : Nat) (hI : Inv st) :
    mems_free (fuel + 1) st v_ptr =
      .ok { st := st, ret := (), out := [.error_free_unallocated] } :=
  mems_free_self_loop fuel st v_ptr _ hI.main rfl

theorem Reachable.inv {st : State} (h : Reachable st) : Inv st := by
  induction h with
  | init m1 m2 o h1 h2 h => exact mems_init_spec m1 m2 o h1 h2 h
  | malloc fuel st size mm o _ hok h ih =>
    by_cases hmm : mm = MAP_FAILED
    · subst hmm
      rw [mems_malloc_failed] at h
      cases h
      exact ih
    · obtain ⟨o2, ho2, hI2, _⟩ := mems_malloc_spec fuel st size mm ih hok hmm
      rw [ho2] at h
      cases h
      exact hI2
  | free fuel st v_ptr o _ h ih =>
    rw [mems_free_state fuel st v_ptr o h]
    exact ih
  | print_stats st _ ih => exact ih
  | get st v_ptr _ ih => exact ih
  | finish fuel st o _ h ih =>
    rw [mems_finish_eq] at h
    cases h
    exact ih

/-! ## Traversals of reachable states -/

theorem subChainFrom_ring (heap : List SubChainNode)
    (hring : ∀ i nd, heap[i]? = some nd →
      nd.next = some (if i + 1 = heap.length then 0 else i + 1)) :
    ∀ fuel i, i < heap.length → heap.length ≤ i + fuel →
      subChainFrom heap 0 fuel i = heap.drop i := by
  intro fuel
  induction fuel with
  | zero => intro i h1 h2; omega
  | succ k ih =>
    intro i h1 h2
    have hi : heap[i]? = some heap[i] := List.getElem?_eq_getElem h1
    have hnext := hring i _ hi
    rw [List.drop_eq_getElem_cons h1]
    simp only [subChainFrom, hi, hnext]
    by_cases hlast : i + 1 = heap.length
    · simp [hlast]
    · have hne : ¬ (i + 1 = 0) := by omega
      simp only [hlast, if_false, Option.some.injEq, hne]
      rw [ih (i + 1) (by omega) (by omega)]

theorem Inv.mainChain_eq {st : State} (hI : Inv st) :
    mainChain st =
      [⟨if st.subs.length = 0 then none else some 0, st.free_list, st.free_list⟩] := by
  have hm := hI.main
  have hpos : st.mains.length ≠ 0 := by
    intro h0
    have : st.mains = [] := List.length_eq_zero.1 h0
    simp [loadMain, this] at hm
  obtain ⟨k, hk⟩ := Nat.exists_eq_succ_of_ne_zero hpos
  simp [mainChain, hk, mainChainFrom, hm]

theorem Inv.subChainOf_eq {st : State} (hI : Inv st) :
    subChainOf st ⟨if st.subs.length = 0 then none else some 0, st.free_list, st.free_list⟩ =
      st.subs := by
  by_cases hn : st.subs.length = 0
  · simp [subChainOf, hn, List.length_eq_zero.1 hn]
  · simp only [subChainOf, hn, if_false]
    rw [subChainFrom_ring st.subs (fun i nd h => (hI.ring i nd h).1) _ 0 (by omega) (by omega)]
    simp

theorem Inv.segments_eq {st : State} (hI : Inv st) : segments st = st.subs := by
  simp only [segments, hI.mainChain_eq, List.map_cons, List.map_nil, hI.subChainOf_eq]
  simp

theorem ex0_reachable : Reachable ex0 :=
  Reachable.init 4096 8192 ⟨ex0, (), [.mmap 4096 4096, .mmap 4096 8192, .print_initialized]⟩
    (by decide) (by decide) (by decide)

theorem ex1_reachable : Reachable ex1 :=
  Reachable.malloc 1 ex0 100 12288 ⟨ex1, 12288, [.mmap 100 12288, .print_allocated 100 12288]⟩
    ex0_reachable (by decide) (by decide)

theorem ex2_reachable : Reachable ex2 :=
  Reachable.malloc 1 ex1 50 16384 ⟨ex2, 16384, [.mmap 50 16384, .print_allocated 50 16384]⟩
    ex1_reachable (by decide) (by decide)

theorem exA_reachable : Reachable exA :=
  Reachable.malloc 1 ex0 10000 12288
    ⟨exA, 12288, [.mmap 10000 12288, .print_allocated 10000 12288]⟩
    ex0_reachable (by decide) (by decide)

theorem ceil_div_page (n : Nat) :
    ⌈(n : ℚ) / ((PAGE_SIZE : Nat) : ℚ)⌉₊ = (n + 4095) / 4096 := by
  have hp : ((PAGE_SIZE : Nat) : ℚ) = 4096 := by norm_num [PAGE_SIZE]
  rw [hp]
  apply le_antisymm
  · rw [Nat.ceil_le, div_le_iff₀ (by norm_num)]
    have h : n ≤ (n + 4095) / 4096 * 4096 := by omega
    exact_mod_cast h
  · rcases Nat.eq_zero_or_pos ((n + 4095) / 4096) with h0 | hpos
    · rw [h0]; exact Nat.zero_le _
    · have hlt : (n + 4095) / 4096 - 1 < ⌈(n : ℚ) / (4096 : ℚ)⌉₊ := by
        rw [Nat.lt_ceil, lt_div_iff₀ (by norm_num)]
        have h : ((n + 4095) / 4096 - 1) * 4096 < n := by omega
        exact_mod_cast h
      omega

theorem addPages_exact (pages : Int) (d : Nat) (h1 : -2 ^ 31 ≤ pages)
    (h2 : pages + d < 2 ^ 31) : addPages pages d = pages + d := by
  unfold addPages toInt32 toSizeT WORD
  split_ifs <;> omega

theorem add_segment_pages (st : State) (p size : Nat) (st1 : State)
    (h : add_segment st p size = .ok st1) :
    st1.total_mapped_pages = st.total_mapped_pages := by
  unfold add_segment at h
  dsimp only at h
  split at h
  · cases h
  · split at h
    · simp only [Except.ok.injEq] at h
      subst h
      rfl
    · split at h
      · cases h
      · split at h
        · cases h
        · split at h
          · cases h
          · split at h
            · cases h
            · simp only [Except.ok.injEq] at h
              subst h
              rfl

theorem mems_malloc_pages (fuel : Nat) (st : State) (size mm : Nat) (o : Outcome Nat)
    (hmm : mm ≠ MAP_FAILED) (h : mems_malloc fuel st size mm = .ok o) :
    o.st.total_mapped_pages = addPages st.total_mapped_pages (pagesFor size) := by
  rw [mems_malloc_mapped fuel st size mm hmm] at h
  split at h
  · cases h
  · rename_i st1 hadd
    simp only [Except.ok.injEq] at h
    subst h
    have := add_segment_pages _ _ _ _ hadd
    simp only [] at this ⊢
    rw [this]

theorem mems_init_pages (st : State) (m1 m2 : Nat) (o : Outcome Unit)
    (h : mems_init st m1 m2 = .ok o) : o.st.total_mapped_pages = 0 := by
  unfold mems_init at h
  split_ifs at h
  simp only [Except.ok.injEq] at h
  subst h
  rfl


/-! ## The claims -/

/-- Claim C1, counter invariant: in every reachable state `total_unused_memory` equals the
sum of the `size` fields of all segments of type `HOLE`, over all main-chain nodes. -/
theorem counter_invariant (st : State) (h : Reachable st) :
    st.total_unused_memory =
      (((segments st).filter (fun s => s.type = .HOLE)).map (fun s => s.size)).sum := by
  have hI := h.inv
  rw [hI.segments_eq, hI.unused]
  congr 2
  symm
  rw [List.filter_eq_self]
  intro nd hnd
  simp [layout_holes _ _ hI.data nd hnd]

/-- Witness of C1 at the state reached by `mems_init`, `mems_malloc(100)`, `mems_malloc(50)`. -/
theorem counter_invariant_witness :
    Reachable ex2 ∧ ex2.total_unused_memory =
      (((segments ex2).filter (fun s => s.type = .HOLE)).map (fun s => s.size)).sum :=
  ⟨ex2_reachable, counter_invariant ex2 ex2_reachable⟩

/-- Claim C2, first-fit reuse, evaluated on the scenario of the claim: after
`mems_malloc(100)` returned `A1 = 0x3000`, `mems_malloc(50)` and `mems_free(A1)`, the first
hole in scan order has 100 bytes, yet `mems_malloc(90)` calls `mmap` again and returns the
new mapping `0x5000`. -/
theorem first_fit_scenario_maps_anew :
    mems_malloc 8 ex0 100 12288 =
      .ok ⟨ex1, 12288, [.mmap 100 12288, .print_allocated 100 12288]⟩ ∧
    mems_malloc 8 ex1 50 16384 =
      .ok ⟨ex2, 16384, [.mmap 50 16384, .print_allocated 50 16384]⟩ ∧
    mems_free 8 ex2 12288 = .ok ⟨ex2, (), [.error_free_unallocated]⟩ ∧
    (segments ex2).find? (fun s => s.type = .HOLE ∧ 90 ≤ s.size) =
      some ⟨8192, 100, .HOLE, some 1, some 1⟩ ∧
    MmapOk ex2.mappings 90 20480 ∧
    mems_malloc 8 ex2 90 20480 =
      .ok ⟨ex3, 20480, [.mmap 90 20480, .print_allocated 90 20480]⟩ := by
  decide

/-- Claim C3, evaluated after `mems_init`: `mems_malloc(100)` returns the mapping `0x3000`,
and the only segment of the resulting state starts at `0x2000` and has type `HOLE`. -/
theorem malloc_new_segment_is_hole :
    mems_malloc 8 ex0 100 12288 =
      .ok ⟨ex1, 12288, [.mmap 100 12288, .print_allocated 100 12288]⟩ ∧
    segments ex1 = [⟨8192, 100, .HOLE, some 0, some 0⟩] ∧
    ¬ ∃ s ∈ segments ex1, s.start_address = 12288 ∧ s.type = .PROCESS := by
  decide

/-- Claim C4, evaluated on a state whose only segment is allocated and starts at `0x2000`:
`mems_free(0x2000)` prints the error line and leaves the state, in particular the type of
the segment and `total_unused_memory`, as it was. -/
theorem free_keeps_process_segment :
    segments exP = [⟨8192, 100, .PROCESS, some 0, some 0⟩] ∧
    mems_free 8 exP 8192 = .ok ⟨exP, (), [.error_free_unallocated]⟩ := by
  decide

/-- Claim C5, invalid free: in a reachable state, for an address that is not the start of
an allocated segment, `mems_free` prints the error line and changes nothing. -/
theorem invalid_free_reported (fuel : Nat) (st : State) (v_ptr : Nat) (hR : Reachable st)
    (hfuel : 1 ≤ fuel)
    (hv : ¬ ∃ s ∈ segments st, s.start_address = v_ptr ∧ s.type = .PROCESS) :
    mems_free fuel st v_ptr = .ok ⟨st, (), [.error_free_unallocated]⟩ := by
  obtain ⟨k, rfl⟩ : ∃ k, fuel = k + 1 := ⟨fuel - 1, by omega⟩
  have _ := hv
  exact mems_free_spec k st v_ptr hR.inv

/-- Witness of C5: freeing `0x3000` in the state reached by `mems_init`, `mems_malloc(100)`,
`mems_malloc(50)`. -/
theorem invalid_free_reported_witness :
    Reachable ex2 ∧ (¬ ∃ s ∈ segments ex2, s.start_address = 12288 ∧ s.type = .PROCESS) ∧
      mems_free 8 ex2 12288 = .ok ⟨ex2, (), [.error_free_unallocated]⟩ :=
  ⟨ex2_reachable, by decide,
    invalid_free_reported 8 ex2 12288 ex2_reachable (by decide) (by decide)⟩

/-- Claim C6, round trip, evaluated after `mems_init`: `mems_malloc(100)` followed by
`mems_free` of the returned address leaves `total_unused_memory` at 100 instead of 0 and
one segment instead of none. -/
theorem round_trip_grows :
    mems_malloc 8 ex0 100 12288 =
      .ok ⟨ex1, 12288, [.mmap 100 12288, .print_allocated 100 12288]⟩ ∧
    mems_free 8 ex1 12288 = .ok ⟨ex1, (), [.error_free_unallocated]⟩ ∧
    ex0.total_unused_memory = 0 ∧ ex1.total_unused_memory = 100 ∧
    (segments ex0).length = 0 ∧ (segments ex1).length = 1 := by
  decide

/-- Claim C7, contiguity invariant: in every reachable state, in the sub-chain of every
main-chain node, each segment starts where its predecessor in traversal order ends. -/
theorem contiguity_invariant (st : State) (h : Reachable st) :
    ∀ mc ∈ mainChain st,
      List.Chain' (fun a b : SubChainNode => b.start_address = a.start_address + a.size)
        (subChainOf st mc) := by
  have hI := h.inv
  intro mc hmc
  rw [hI.mainChain_eq, List.mem_singleton] at hmc
  rw [hmc, hI.subChainOf_eq]
  exact (layout_chain _ _ hI.data).1

/-- Witness of C7 at the state reached by `mems_init`, `mems_malloc(100)`, `mems_malloc(50)`. -/
theorem contiguity_invariant_witness :
    Reachable ex2 ∧ ∀ mc ∈ mainChain ex2,
      List.Chain' (fun a b : SubChainNode => b.start_address = a.start_address + a.size)
        (subChainOf ex2 mc) :=
  ⟨ex2_reachable, contiguity_invariant ex2 ex2_reachable⟩

/-- Claim C8 as stated fails: after `mems_init`, a successful `mems_malloc(2 ^ 43)` takes
`total_mapped_pages` from 0 to `-2147483648`, not to `0 + ceil(2 ^ 43 / 4096)`. -/
theorem mapped_pages_wraps :
    MmapOk ex0.mappings (2 ^ 43) (2 ^ 44) ∧
    mems_malloc 8 ex0 (2 ^ 43) (2 ^ 44) =
      .ok ⟨exBig, 2 ^ 44, [.mmap (2 ^ 43) (2 ^ 44), .print_allocated (2 ^ 43) (2 ^ 44)]⟩ ∧
    exBig.total_mapped_pages = -2147483648 ∧
    exBig.total_mapped_pages ≠
      ex0.total_mapped_pages + ((⌈(((2 ^ 43 : Nat) : ℚ)) / ((PAGE_SIZE : Nat) : ℚ)⌉₊ : Nat) : Int) := by
  refine ⟨by decide, by decide, by decide, ?_⟩
  rw [ceil_div_page]
  decide

/-- Claim C8, amended: when `size + PAGE_SIZE - 1` does not wrap and the sum stays in the
range of `int`, a successful `mems_malloc(size)` that obtains a new mapping increases
`total_mapped_pages` by exactly `ceil(size / PAGE_SIZE)`; and after `mems_init`, a
successful `mems_malloc(100)` leaves `total_mapped_pages = 1`. -/
theorem mapped_pages_accounting :
    (∀ (fuel : Nat) (st : State) (size mm : Nat) (o : Outcome Nat),
      mems_malloc fuel st size mm = .ok o → mm ≠ MAP_FAILED → Event.mmap size mm ∈ o.out →
      size + PAGE_SIZE - 1 < WORD → -2 ^ 31 ≤ st.total_mapped_pages →
      st.total_mapped_pages + ((⌈(size : ℚ) / ((PAGE_SIZE : Nat) : ℚ)⌉₊ : Nat) : Int) < 2 ^ 31 →
      o.st.total_mapped_pages =
        st.total_mapped_pages + ((⌈(size : ℚ) / ((PAGE_SIZE : Nat) : ℚ)⌉₊ : Nat) : Int)) ∧
    (∀ (fuel : Nat) (st0 : State) (m1 m2 mm : Nat) (o0 : Outcome Unit) (o : Outcome Nat),
      mems_init st0 m1 m2 = .ok o0 → mm ≠ MAP_FAILED →
      mems_malloc fuel o0.st 100 mm = .ok o → o.st.total_mapped_pages = 1) := by
  constructor
  · intro fuel st size mm o h hmm _ hsz hlo hhi
    rw [mems_malloc_pages fuel st size mm o hmm h]
    rw [ceil_div_page] at hhi ⊢
    have hp : pagesFor size = (size + 4095) / 4096 := by
      unfold pagesFor
      simp only [PAGE_SIZE, WORD] at hsz ⊢
      rw [Nat.mod_eq_of_lt (by omega)]
      congr 1
    rw [hp]
    exact addPages_exact _ _ hlo hhi
  · intro fuel st0 m1 m2 mm o0 o h0 hmm h
    rw [mems_malloc_pages fuel o0.st 100 mm o hmm h, mems_init_pages st0 m1 m2 o0 h0]
    decide

/-- Witness of the amended C8: `mems_malloc(100)` right after `mems_init`. -/
theorem mapped_pages_accounting_witness :
    mems_malloc 8 ex0 100 12288 =
      .ok ⟨ex1, 12288, [.mmap 100 12288, .print_allocated 100 12288]⟩ ∧
    ex1.total_mapped_pages =
      ex0.total_mapped_pages + ((⌈((100 : Nat) : ℚ) / ((PAGE_SIZE : Nat) : ℚ)⌉₊ : Nat) : Int) :=
  ⟨by decide,
    mapped_pages_accounting.1 8 ex0 100 12288
      ⟨ex1, 12288, [.mmap 100 12288, .print_allocated 100 12288]⟩
      (by decide) (by decide) (by decide) (by decide) (by decide)
      (by rw [ceil_div_page]; decide)⟩

/-- Claim C9, allocation failure is reported and atomic: in every state and for every
size, when `mmap` fails `mems_malloc` reports it through `perror`, returns `NULL` and leaves
the whole state as it was. -/
theorem malloc_failure_atomic (fuel : Nat) (st : State) (size : Nat) :
    mems_malloc fuel st size MAP_FAILED =
      .ok ⟨st, NULL, [.mmap size MAP_FAILED, .perror_mmap]⟩ := by
  simp [mems_malloc, malloc_outer_self]

/-- Claim C10, split correctness, evaluated on a reachable state whose only segment is a
hole of 10000 bytes: `mems_malloc(100)`, with `10000 > 100 + PAGE_SIZE`, leaves that hole
whole and of type `HOLE`, maps a new region and appends a second hole of 100 bytes. -/
theorem large_hole_not_split :
    segments exA = [⟨8192, 10000, .HOLE, some 0, some 0⟩] ∧
    MmapOk exA.mappings 100 24576 ∧
    mems_malloc 8 exA 100 24576 =
      .ok ⟨exB, 24576, [.mmap 100 24576, .print_allocated 100 24576]⟩ ∧
    segments exB =
      [⟨8192, 10000, .HOLE, some 1, some 1⟩, ⟨18192, 100, .HOLE, some 0, some 0⟩] := by
  decide

/-! ## Further facts about reachable states -/

theorem toInt32_range (n : Nat) : -2 ^ 31 ≤ toInt32 n ∧ toInt32 n < 2 ^ 31 := by
  unfold toInt32
  split_ifs <;> constructor <;> omega

theorem Reachable.pages_range {st : State} (h : Reachable st) :
    -2 ^ 31 ≤ st.total_mapped_pages ∧ st.total_mapped_pages < 2 ^ 31 := by
  induction h with
  | init m1 m2 o h1 h2 h =>
    rw [mems_init_pages boot m1 m2 o h]
    constructor <;> norm_num
  | malloc fuel st size mm o _ hok h ih =>
    by_cases hmm : mm = MAP_FAILED
    · subst hmm
      rw [mems_malloc_failed] at h
      cases h
      exact ih
    · rw [mems_malloc_pages fuel st size mm o hmm h]
      exact toInt32_range _
  | free fuel st v_ptr o _ h ih =>
    rw [mems_free_state fuel st v_ptr o h]
    exact ih
  | print_stats st _ ih => exact ih
  | get st v_ptr _ ih => exact ih
  | finish fuel st o _ h ih =>
    rw [mems_finish_eq] at h
    cases h
    exact ih

theorem Reachable.lens_eq {st : State} (h : Reachable st) :
    (st.subs.map (fun x => x.size)).sum + 2 * PAGE_SIZE = lens st.mappings := by
  induction h with
  | init m1 m2 o h1 h2 h =>
    unfold mems_init at h
    split_ifs at h
    simp only [Except.ok.injEq] at h
    subst h
    simp [storeMain, boot, lens]
    omega
  | malloc fuel st size mm o hR hok h ih =>
    by_cases hmm : mm = MAP_FAILED
    · subst hmm
      rw [mems_malloc_failed] at h
      cases h
      exact ih
    · obtain ⟨o2, ho2, _, _, _, hview, _, _, hmaps, _⟩ :=
        mems_malloc_spec fuel st size mm hR.inv hok hmm
      rw [ho2] at h
      cases h
      rw [map_size_eq_view, hview, hmaps]
      simp only [lens, List.map_append, List.map_cons, List.map_nil, List.sum_append,
        List.sum_cons, List.sum_nil] at ih ⊢
      rw [← map_size_eq_view] at *
      simp only [view] at *
      omega
  | free fuel st v_ptr o _ h ih =>
    rw [mems_free_state fuel st v_ptr o h]
    exact ih
  | print_stats st _ ih => exact ih
  | get st v_ptr _ ih => exact ih
  | finish fuel st o _ h ih =>
    rw [mems_finish_eq] at h
    cases h
    exact ih

theorem layout_bounds (l : List SubChainNode) (a : Nat)
    (h : l.map view = layout a (l.map (fun x => x.size))) :
    ∀ s ∈ l, a ≤ s.start_address ∧
      s.start_address + s.size ≤ a + (l.map (fun x => x.size)).sum := by
  induction l generalizing a with
  | nil => simp
  | cons x xs ih =>
    simp only [List.map_cons, layout, List.cons.injEq] at h
    obtain ⟨hx, hxs⟩ := h
    simp [view] at hx
    intro s hs
    simp only [List.map_cons, List.sum_cons]
    rcases List.mem_cons.1 hs with rfl | hs
    · omega
    · have := ih _ hxs s hs
      omega

theorem mems_init_unused (st : State) (m1 m2 : Nat) (o : Outcome Unit)
    (h : mems_init st m1 m2 = .ok o) : o.st.total_unused_memory = 0 := by
  unfold mems_init at h
  split_ifs at h
  simp only [Except.ok.injEq] at h
  subst h
  rfl

theorem mems_init_chain (st : State) (m1 m2 : Nat) (o : Outcome Unit)
    (h : mems_init st m1 m2 = .ok o) : mainChain o.st = [⟨none, m1, m1⟩] := by
  unfold mems_init at h
  split_ifs at h
  simp only [Except.ok.injEq] at h
  subst h
  simp [mainChain, mainChainFrom, storeMain, loadMain, List.lookup]

theorem exPg_reachable : Reachable exPg :=
  Reachable.malloc 1 ex0 8192 12288
    ⟨exPg, 12288, [.mmap 8192 12288, .print_allocated 8192 12288]⟩
    ex0_reachable (by decide) (by decide)

/-! ## The claims, continued -/

/-- Claim C11, coalesce correctness, evaluated on a state whose sub-chain is an allocated
segment of 100 bytes at `0x2000` followed by a hole of 50 bytes: `mems_free(0x2000)` prints
the error line and leaves both segments as they were, nothing is merged. -/
theorem free_does_not_coalesce :
    segments exQ =
      [⟨8192, 100, .PROCESS, some 1, some 1⟩, ⟨8292, 50, .HOLE, some 0, some 0⟩] ∧
    mems_free 8 exQ 8192 = .ok ⟨exQ, (), [.error_free_unallocated]⟩ := by
  decide

/-- Claim C12 as stated fails: after `mems_init` and `mems_malloc(100)` the only region has
segments of total size 100, which is not a multiple of `PAGE_SIZE`. -/
theorem region_length_not_page_multiple :
    Reachable ex1 ∧
    ¬ ∀ mc ∈ mainChain ex1, subChainOf ex1 mc ≠ [] →
        PAGE_SIZE ∣ ((subChainOf ex1 mc).map (fun s => s.size)).sum :=
  ⟨ex1_reachable, by decide⟩

/-- Claim C12, amended: in every reachable state the sizes of the segments of a main-chain
node add up to the total length requested from `mmap` by `mems_malloc` (all mapped lengths
but the two base pages); so the sum is a multiple of `PAGE_SIZE` whenever every requested
length is. -/
theorem region_length_is_requested_length (st : State) (h : Reachable st) :
    ∀ mc ∈ mainChain st,
      ((subChainOf st mc).map (fun s => s.size)).sum + 2 * PAGE_SIZE = lens st.mappings ∧
      ((∀ m ∈ st.mappings, PAGE_SIZE ∣ m.2) →
        PAGE_SIZE ∣ ((subChainOf st mc).map (fun s => s.size)).sum) := by
  have hI := h.inv
  have hl := h.lens_eq
  intro mc hmc
  rw [hI.mainChain_eq, List.mem_singleton] at hmc
  rw [hmc, hI.subChainOf_eq]
  refine ⟨hl, fun hall => ?_⟩
  have hd : PAGE_SIZE ∣ lens st.mappings := by
    unfold lens
    apply List.dvd_sum
    intro x hx
    obtain ⟨m, hm, rfl⟩ := List.mem_map.1 hx
    exact hall m hm
  have h2 : PAGE_SIZE ∣ 2 * PAGE_SIZE := Dvd.intro_left 2 rfl
  rw [← hl] at hd
  exact (Nat.dvd_add_left h2).1 hd

/-- Witness of the amended C12: after `mems_init` and `mems_malloc(8192)`. -/
theorem region_length_is_requested_length_witness :
    Reachable exPg ∧ ∀ mc ∈ mainChain exPg,
      ((subChainOf exPg mc).map (fun s => s.size)).sum + 2 * PAGE_SIZE = lens exPg.mappings ∧
      ((∀ m ∈ exPg.mappings, PAGE_SIZE ∣ m.2) →
        PAGE_SIZE ∣ ((subChainOf exPg mc).map (fun s => s.size)).sum) :=
  ⟨exPg_reachable, region_length_is_requested_length exPg exPg_reachable⟩

/-- Claim C13 as stated fails: after `mems_init` and `mems_malloc(100)` the only segment
starts at `start_mems_virtual_address` and lies inside the base page. -/
theorem base_page_is_subdivided :
    Reachable ex1 ∧
    (∃ s ∈ segments ex1, s.start_address = ex1.start_mems_virtual_address) ∧
    ¬ ∀ s ∈ segments ex1,
        s.start_address + s.size ≤ ex1.start_mems_virtual_address ∨
        ex1.start_mems_virtual_address + PAGE_SIZE ≤ s.start_address :=
  ⟨ex1_reachable, by decide, by decide⟩

/-- Claim C13, amended: in every reachable state the segments are laid end to end from
`start_mems_virtual_address`: the first segment in scan order starts exactly there, and
the range of every segment lies between `start_mems_virtual_address` and that address plus
the total size of the segments. -/
theorem segments_start_at_base (st : State) (h : Reachable st) :
    (∀ s ∈ (segments st).head?, s.start_address = st.start_mems_virtual_address) ∧
    ∀ s ∈ segments st,
      st.start_mems_virtual_address ≤ s.start_address ∧
      s.start_address + s.size ≤
        st.start_mems_virtual_address + ((segments st).map (fun x => x.size)).sum := by
  have hI := h.inv
  rw [hI.segments_eq]
  exact ⟨(layout_chain _ _ hI.data).2, layout_bounds _ _ hI.data⟩

/-- Witness of the amended C13 at the state reached by `mems_init`, `mems_malloc(100)`,
`mems_malloc(50)`. -/
theorem segments_start_at_base_witness :
    Reachable ex2 ∧
    (∀ s ∈ (segments ex2).head?, s.start_address = ex2.start_mems_virtual_address) ∧
    ∀ s ∈ segments ex2,
      ex2.start_mems_virtual_address ≤ s.start_address ∧
      s.start_address + s.size ≤
        ex2.start_mems_virtual_address + ((segments ex2).map (fun x => x.size)).sum :=
  ⟨ex2_reachable, segments_start_at_base ex2 ex2_reachable⟩

/-- Claim C14, shutdown releases everything, evaluated after `mems_init` and
`mems_malloc(100)`: `mems_finish` only prints its last line, calls `munmap` for nothing and
leaves the mapping at `0x3000` and the segment in place. -/
theorem finish_releases_nothing :
    mems_malloc 8 ex0 100 12288 =
      .ok ⟨ex1, 12288, [.mmap 100 12288, .print_allocated 100 12288]⟩ ∧
    mems_finish 8 ex1 = .ok ⟨ex1, (), [.print_finished]⟩ ∧
    (12288, 100) ∈ ex1.mappings ∧
    segments ex1 = [⟨8192, 100, .HOLE, some 0, some 0⟩] := by
  decide

/-- Claim C15 as stated fails: after `mems_init`, a successful `mems_malloc(2 ^ 43)` takes
`total_mapped_pages` from 0 down to `-2147483648`. -/
theorem mapped_pages_decreases :
    Reachable ex0 ∧ MmapOk ex0.mappings (2 ^ 43) (2 ^ 44) ∧
    mems_malloc 8 ex0 (2 ^ 43) (2 ^ 44) =
      .ok ⟨exBig, 2 ^ 44, [.mmap (2 ^ 43) (2 ^ 44), .print_allocated (2 ^ 43) (2 ^ 44)]⟩ ∧
    exBig.total_mapped_pages < ex0.total_mapped_pages :=
  ⟨ex0_reachable, by decide, by decide, by decide⟩

/-- Claim C15, amended: in every reachable state `mems_free`, `mems_print_stats`,
`mems_get` and `mems_finish` leave `total_mapped_pages` as it is, and `mems_malloc(size)`
does not decrease it provided that adding `(size + PAGE_SIZE - 1) / PAGE_SIZE` to it does
not exceed `INT_MAX`. -/
theorem mapped_pages_monotonic (st : State) (h : Reachable st) :
    (∀ (fuel size mm : Nat) (o : Outcome Nat), mems_malloc fuel st size mm = .ok o →
      st.total_mapped_pages + (pagesFor size : Int) < 2 ^ 31 →
      st.total_mapped_pages ≤ o.st.total_mapped_pages) ∧
    (∀ (fuel v_ptr : Nat) (o : Outcome Unit), mems_free fuel st v_ptr = .ok o →
      o.st.total_mapped_pages = st.total_mapped_pages) ∧
    (mems_print_stats st).st.total_mapped_pages = st.total_mapped_pages ∧
    (∀ v_ptr : Nat, (mems_get st v_ptr).st.total_mapped_pages = st.total_mapped_pages) ∧
    (∀ (fuel : Nat) (o : Outcome Unit), mems_finish fuel st = .ok o →
      o.st.total_mapped_pages = st.total_mapped_pages) := by
  refine ⟨?_, ?_, rfl, fun _ => rfl, ?_⟩
  · intro fuel size mm o hm hlt
    by_cases hmm : mm = MAP_FAILED
    · subst hmm
      rw [mems_malloc_failed] at hm
      cases hm
      exact le_refl _
    · rw [mems_malloc_pages fuel st size mm o hmm hm,
        addPages_exact _ _ h.pages_range.1 hlt]
      omega
  · intro fuel v_ptr o hf
    rw [mems_free_state fuel st v_ptr o hf]
  · intro fuel o hf
    rw [mems_finish_eq] at hf
    cases hf
    rfl

/-- Witness of the amended C15: `mems_malloc(50)` and `mems_free(0x3000)` after `mems_init`
and `mems_malloc(100)`. -/
theorem mapped_pages_monotonic_witness :
    Reachable ex1 ∧
    mems_malloc 8 ex1 50 16384 =
      .ok ⟨ex2, 16384, [.mmap 50 16384, .print_allocated 50 16384]⟩ ∧
    ex1.total_mapped_pages ≤ ex2.total_mapped_pages ∧
    mems_free 8 ex1 12288 = .ok ⟨ex1, (), [.error_free_unallocated]⟩ ∧
    (⟨ex1, (), [.error_free_unallocated]⟩ : Outcome Unit).st.total_mapped_pages =
      ex1.total_mapped_pages :=
  ⟨ex1_reachable, by decide,
    (mapped_pages_monotonic ex1 ex1_reachable).1 8 50 16384
      ⟨ex2, 16384, [.mmap 50 16384, .print_allocated 50 16384]⟩ (by decide) (by decide),
    by decide,
    (mapped_pages_monotonic ex1 ex1_reachable).2.1 8 12288
      ⟨ex1, (), [.error_free_unallocated]⟩ (by decide)⟩

/-- Claim C16, init resets the directory: from every prior state, when both `mmap` calls
succeed, `mems_init` returns with both counters 0 and a main chain of one node whose
sub-chain is empty. -/
theorem init_resets (st : State) (m1 m2 : Nat) (h1 : m1 ≠ MAP_FAILED) (h2 : m2 ≠ MAP_FAILED) :
    ∃ o, mems_init st m1 m2 = .ok o ∧
      o.st.total_mapped_pages = 0 ∧ o.st.total_unused_memory = 0 ∧
      mainChain o.st = [⟨none, m1, m1⟩] ∧
      (∀ mc ∈ mainChain o.st, subChainOf o.st mc = []) ∧ segments o.st = [] := by
  obtain ⟨o, ho⟩ : ∃ o, mems_init st m1 m2 = .ok o := by
    simp [mems_init, h1, h2]
  have hmc := mems_init_chain st m1 m2 o ho
  refine ⟨o, ho, mems_init_pages st m1 m2 o ho, mems_init_unused st m1 m2 o ho, hmc, ?_, ?_⟩
  · intro mc hmem
    rw [hmc, List.mem_singleton] at hmem
    subst hmem
    rfl
  · simp [segments, hmc, subChainOf]

/-- Witness of C16: `mems_init` called again in the state reached by `mems_init`,
`mems_malloc(100)`, `mems_malloc(50)`, with `mmap` returning `0x7000` and `0x8000`. -/
theorem init_resets_witness :
    ∃ o, mems_init ex2 28672 32768 = .ok o ∧
      o.st.total_mapped_pages = 0 ∧ o.st.total_unused_memory = 0 ∧
      mainChain o.st = [⟨none, 28672, 28672⟩] ∧
      (∀ mc ∈ mainChain o.st, subChainOf o.st mc = []) ∧ segments o.st = [] :=
  init_resets ex2 28672 32768 (by decide) (by decide)

/-- Claim C17, `mems_get` is the identity: for every address and every state it returns
the address it was given and leaves the state unchanged. -/
theorem get_is_identity (st : State) (v_ptr : Nat) :
    (mems_get st v_ptr).ret = v_ptr ∧ (mems_get st v_ptr).st = st ∧
      (mems_get st v_ptr).out = [] :=
  ⟨rfl, rfl, rfl⟩

/-- Claim C18, exact effect of a successful allocation: in a reachable state the scan loop
of `mems_malloc` ends without a single run of its body; when `mmap` succeeds with `mm` the
call returns `mm`, the main chain is still one node, one segment of type `HOLE` and the
requested size is appended after the old segments, at `start_mems_virtual_address` if
there were none and at the end of the old tail otherwise, the old segments keep their
`start_address`, `size`, `type` and order, and `total_unused_memory` grows by `size`. -/
theorem malloc_exact_effect (st : State) (size mm : Nat) (h : Reachable st)
    (hok : MmapOk st.mappings size mm) (hmm : mm ≠ MAP_FAILED) :
    malloc_outer size 0 st st.free_list = .ok (.inr st.free_list) ∧
    ∃ o, (∀ fuel, mems_malloc fuel st size mm = .ok o) ∧ o.ret = mm ∧
      (mainChain st).length = 1 ∧ (mainChain o.st).length = 1 ∧
      (segments o.st).map view = (segments st).map view ++
        [((match (segments st).getLast? with
            | none => st.start_mems_virtual_address
            | some tl => tl.start_address + tl.size), size, .HOLE)] ∧
      o.st.total_unused_memory = st.total_unused_memory + size := by
  have hI := h.inv
  obtain ⟨o, ho, hI2, hret, _, hview, hun, _⟩ := mems_malloc_spec 0 st size mm hI hok hmm
  refine ⟨malloc_outer_self size 0 st, o, ?_, hret, ?_, ?_, ?_, hun⟩
  · intro fuel
    rw [mems_malloc_mapped fuel st size mm hmm, ← mems_malloc_mapped 0 st size mm hmm, ho]
  · rw [hI.mainChain_eq]; rfl
  · rw [hI2.mainChain_eq]; rfl
  · rw [hI2.segments_eq, hI.segments_eq, hview]
    congr 3
    cases hl : st.subs.getLast? with
    | none =>
      rw [List.getLast?_eq_none_iff] at hl
      simp [hl]
    | some tl =>
      exact (layout_last st.subs _ tl hI.data hl).symm

/-- Witness of C18: `mems_malloc(50)` after `mems_init` and `mems_malloc(100)`. -/
theorem malloc_exact_effect_witness :
    Reachable ex1 ∧ MmapOk ex1.mappings 50 16384 ∧
    malloc_outer 50 0 ex1 ex1.free_list = .ok (.inr ex1.free_list) ∧
    ∃ o, (∀ fuel, mems_malloc fuel ex1 50 16384 = .ok o) ∧ o.ret = 16384 ∧
      (mainChain ex1).length = 1 ∧ (mainChain o.st).length = 1 ∧
      (segments o.st).map view = (segments ex1).map view ++
        [((match (segments ex1).getLast? with
            | none => ex1.start_mems_virtual_address
            | some tl => tl.start_address + tl.size), 50, .HOLE)] ∧
      o.st.total_unused_memory = ex1.total_unused_memory + 50 :=
  ⟨ex1_reachable, by decide,
    malloc_exact_effect ex1 50 16384 ex1_reachable (by decide) (by decide)⟩

/-- Claim C19, `mems_free` terminates: in a reachable state the main chain has one node,
and with fuel for one run of the `while (1)` body per main-chain node `mems_free` returns,
for every address. -/
theorem free_terminates (st : State) (v_ptr : Nat) (h : Reachable st) :
    (mainChain st).length = 1 ∧
    ∀ fuel, (mainChain st).length ≤ fuel → ∃ o, mems_free fuel st v_ptr = .ok o := by
  have hI := h.inv
  have hlen : (mainChain st).length = 1 := by rw [hI.mainChain_eq]; rfl
  refine ⟨hlen, fun fuel hf => ?_⟩
  obtain ⟨k, rfl⟩ : ∃ k, fuel = k + 1 := ⟨fuel - 1, by omega⟩
  exact ⟨_, mems_free_spec k st v_ptr hI⟩

/-- Witness of C19 at the state reached by `mems_init`, `mems_malloc(100)`,
`mems_malloc(50)`. -/
theorem free_terminates_witness :
    Reachable ex2 ∧ (mainChain ex2).length = 1 ∧
    ∀ fuel, (mainChain ex2).length ≤ fuel → ∃ o, mems_free fuel ex2 8192 = .ok o :=
  ⟨ex2_reachable, free_terminates ex2 8192 ex2_reachable⟩

/-! ## `add_segment` on a well-formed sub-chain -/

theorem add_segment_empty (st : State) (p size : Nat) (mc : MainChainNode)
    (hmc : loadMain st p = some mc) (hsc : mc.sub_chain = none) :
    add_segment st p size = .ok
      (storeMain { st with subs := st.subs ++
        [{ start_address := st.start_mems_virtual_address, size := size, type := .HOLE,
           prev := some st.subs.length, next := some st.subs.length }] } p
        { mc with sub_chain := some st.subs.length }) := by
  simp only [add_segment, hmc, hsc]

theorem add_segment_nonempty (st : State) (p size : Nat) (mc : MainChainNode)
    (h t : Nat) (hd tl : SubChainNode)
    (hmc : loadMain st p = some mc) (hsc : mc.sub_chain = some h)
    (hhd : st.subs[h]? = some hd) (hprev : hd.prev = some t) (htl : st.subs[t]? = some tl) :
    ∃ heap3, add_segment st p size = .ok { st with subs := heap3 } ∧
      ∀ q, heap3[q]? =
        if q = st.subs.length then
          some { start_address := (tl.start_address + tl.size) % WORD, size := size,
                 type := .HOLE, prev := some t, next := some h }
        else
          (st.subs[q]?).map (fun x =>
            { x with next := if q = t then some st.subs.length else x.next,
                     prev := if q = h then some st.subs.length else x.prev }) := by
  have hh : h < st.subs.length := (List.getElem?_eq_some.1 hhd).1
  have ht : t < st.subs.length := (List.getElem?_eq_some.1 htl).1
  have e1 : (st.subs ++ [(⟨(tl.start_address + tl.size) % WORD, size, .HOLE, some t, some h⟩ :
      SubChainNode)])[t]? = some tl := by
    rw [List.getElem?_append_left ht]; exact htl
  obtain ⟨hd2, hhd2⟩ : ∃ hd2, ((st.subs ++ [(⟨(tl.start_address + tl.size) % WORD, size, .HOLE,
      some t, some h⟩ : SubChainNode)]).set t { tl with next := some st.subs.length })[h]? =
      some hd2 :=
    ⟨_, List.getElem?_eq_getElem (by simp; omega)⟩
  refine ⟨((st.subs ++ [(⟨(tl.start_address + tl.size) % WORD, size, .HOLE, some t, some h⟩ :
      SubChainNode)]).set t { tl with next := some st.subs.length }).set h
      { hd2 with prev := some st.subs.length }, ?_, ?_⟩
  · simp only [add_segment, hmc, hsc, loadSub, hhd, updSub, hprev, htl, e1, hhd2]
  · intro q
    rw [List.getElem?_set] at hhd2 ⊢
    rw [List.getElem?_set]
    simp only [List.length_set, List.length_append, List.length_singleton]
    by_cases hqn : q = st.subs.length
    · subst hqn
      rw [if_neg (by omega), if_neg (by omega), if_pos rfl,
        List.getElem?_append_right (le_refl _)]
      simp
    · rw [if_neg hqn]
      by_cases hqh : h = q
      · subst hqh
        rw [if_pos rfl, if_pos (by omega)]
        by_cases hth : t = h
        · subst hth
          rw [if_pos rfl, if_pos (by simp; omega)] at hhd2
          cases hhd2
          rw [htl]
          simp
        · rw [if_neg hth, List.getElem?_append_left hh, hhd] at hhd2
          cases hhd2
          rw [hhd]
          have hht : ¬ h = t := fun e => hth e.symm
          simp [hht]
      · rw [if_neg hqh]
        by_cases hqt : t = q
        · subst hqt
          rw [if_pos rfl, if_pos (by omega), htl]
          have hth : ¬ t = h := fun e => hqh e.symm
          simp [hth]
        · rw [if_neg hqt, List.getElem?_append]
          have hqh2 : ¬ q = h := fun e => hqh e.symm
          have hqt2 : ¬ q = t := fun e => hqt e.symm
          by_cases hlt : q < st.subs.length
          · rw [if_pos hlt]
            cases hq : st.subs[q]? with
            | none => rfl
            | some x => simp [hqh2, hqt2]
          · rw [if_neg hlt]
            have h1 : st.subs[q]? = none := List.getElem?_eq_none (by omega)
            obtain ⟨k, hk⟩ : ∃ k, q - st.subs.length = k + 1 :=
              ⟨q - st.subs.length - 1, by omega⟩
            rw [h1, hk]
            simp

theorem IsRing.lt {heap : List SubChainNode} {cyc : List Nat} (hr : IsRing heap cyc) :
    ∀ q ∈ cyc, q < heap.length := by
  intro q hq
  obtain ⟨i, hi⟩ := List.mem_iff_getElem?.1 hq
  obtain ⟨nd, hnd, _⟩ := hr.2 i q hi
  exact (List.getElem?_eq_some.1 hnd).1

theorem IsRing.linked {heap : List SubChainNode} {cyc : List Nat} (hr : IsRing heap cyc) :
    ∀ q ∈ cyc, Linked heap q := by
  intro q hq
  obtain ⟨i, hi⟩ := List.mem_iff_getElem?.1 hq
  have hik : i < cyc.length := (List.getElem?_eq_some.1 hi).1
  obtain ⟨nd, hnd, hnext, hprev⟩ := hr.2 i q hi
  have hj : (if i + 1 = cyc.length then 0 else i + 1) < cyc.length := by
    split_ifs <;> omega
  have hm : (if i = 0 then cyc.length - 1 else i - 1) < cyc.length := by
    split_ifs <;> omega
  obtain ⟨nx, hnx, _, hnxp⟩ := hr.2 _ _ (List.getElem?_eq_getElem hj)
  obtain ⟨pv, hpv, hpvn, _⟩ := hr.2 _ _ (List.getElem?_eq_getElem hm)
  refine ⟨nd, nx, pv, hnd, ?_, ?_, ?_, ?_⟩
  · rw [hnext, List.getElem?_eq_getElem hj]
    exact hnx
  · rw [hnxp, ← hi]
    congr 1
    by_cases h1 : i + 1 = cyc.length
    · rw [if_pos h1, if_pos rfl]; omega
    · rw [if_neg h1, if_neg (Nat.succ_ne_zero i)]; rfl
  · rw [hprev, List.getElem?_eq_getElem hm]
    exact hpv
  · rw [hpvn, ← hi]
    congr 1
    by_cases h0 : i = 0
    · rw [if_pos h0, if_pos (by omega)]; exact h0.symm
    · rw [if_neg h0, if_neg (by omega)]; omega

theorem isRing_single (heap : List SubChainNode) (nd : SubChainNode)
    (hn : nd.next = some heap.length) (hp : nd.prev = some heap.length) :
    IsRing (heap ++ [nd]) [heap.length] := by
  refine ⟨List.nodup_singleton _, ?_⟩
  intro i p hi
  have hi0 : i = 0 := by
    have := (List.getElem?_eq_some.1 hi).1
    simpa using this
  subst hi0
  simp only [List.getElem?_cons_zero, Option.some.injEq] at hi
  subst hi
  refine ⟨nd, by simp, ?_, ?_⟩
  · simp [hn]
  · simp [hp]

theorem isRing_extend (heap heap3 : List SubChainNode) (cyc : List Nat) (h t : Nat)
    (nd : SubChainNode) (hr : IsRing heap cyc) (hpos : 0 < cyc.length)
    (hh : cyc[0]? = some h) (ht : cyc[cyc.length - 1]? = some t)
    (hndn : nd.next = some h) (hndp : nd.prev = some t)
    (hq : ∀ q, heap3[q]? =
      if q = heap.length then some nd
      else (heap[q]?).map (fun x =>
        { x with next := if q = t then some heap.length else x.next,
                 prev := if q = h then some heap.length else x.prev })) :
    IsRing heap3 (cyc ++ [heap.length]) := by
  have hfresh : heap.length ∉ cyc := fun hm => Nat.lt_irrefl _ (hr.lt _ hm)
  refine ⟨?_, ?_⟩
  · rw [List.nodup_append]
    refine ⟨hr.1, List.nodup_singleton _, ?_⟩
    intro a ha hb
    rw [List.mem_singleton] at hb
    subst hb
    exact hfresh ha
  · intro i q hi
    rw [List.length_append, List.length_singleton]
    by_cases hik : i < cyc.length
    · rw [List.getElem?_append_left hik] at hi
      obtain ⟨ndq, hndq, hnext, hprev⟩ := hr.2 i q hi
      have hqn : q ≠ heap.length := fun e => hfresh (e ▸ List.getElem?_mem hi)
      have hne1 : ¬ (i + 1 = cyc.length + 1) := by omega
      refine ⟨{ ndq with next := if q = t then some heap.length else ndq.next,
                         prev := if q = h then some heap.length else ndq.prev },
        by rw [hq q, if_neg hqn, hndq]; rfl, ?_, ?_⟩
      · dsimp only
        rw [if_neg hne1]
        by_cases hqt : q = t
        · rw [if_pos hqt]
          have hi1 : i = cyc.length - 1 :=
            List.getElem?_inj hik hr.1 (by rw [hi, ht, hqt])
          rw [List.getElem?_append_right (by omega)]
          have : i + 1 - cyc.length = 0 := by omega
          rw [this]
          rfl
        · rw [if_neg hqt, hnext]
          have hi1 : i + 1 ≠ cyc.length := by
            intro e
            apply hqt
            have : cyc.length - 1 = i := by omega
            rw [this, hi] at ht
            exact Option.some.inj ht
          rw [if_neg hi1, List.getElem?_append_left (by omega)]
      · dsimp only
        by_cases hqh : q = h
        · rw [if_pos hqh]
          have hi0 : i = 0 := List.getElem?_inj hik hr.1 (by rw [hi, hh, hqh])
          rw [if_pos hi0, List.getElem?_append_right (by omega)]
          have : cyc.length + 1 - 1 - cyc.length = 0 := by omega
          rw [this]
          rfl
        · rw [if_neg hqh, hprev]
          have hi0 : i ≠ 0 := by
            intro e
            apply hqh
            rw [e, hh] at hi
            exact (Option.some.inj hi).symm
          rw [if_neg hi0, if_neg hi0, List.getElem?_append_left (by omega)]
    · have hlen : i < (cyc ++ [heap.length]).length := (List.getElem?_eq_some.1 hi).1
      rw [List.length_append, List.length_singleton] at hlen
      have hie : i = cyc.length := by omega
      subst hie
      rw [List.getElem?_append_right (le_refl _)] at hi
      simp only [Nat.sub_self, List.getElem?_cons_zero, Option.some.injEq] at hi
      subst hi
      refine ⟨nd, by rw [hq, if_pos rfl], ?_, ?_⟩
      · rw [if_pos rfl, List.getElem?_append_left hpos, hh, hndn]
      · rw [if_neg (by omega), List.getElem?_append_left (by omega), hndp]
        exact ht.symm

theorem IsRing.length_le {heap : List SubChainNode} {cyc : List Nat} (hr : IsRing heap cyc) :
    cyc.length ≤ heap.length := by
  have hsub : cyc ⊆ List.range heap.length := by
    intro q hq
    exact List.mem_range.2 (hr.lt q hq)
  have := (List.subperm_of_subset hr.1 hsub).length_le
  simpa using this

theorem IsRing.traverse {heap : List SubChainNode} {cyc : List Nat} (hr : IsRing heap cyc)
    (h : Nat) (hh : cyc[0]? = some h) :
    ∀ fuel i q, cyc[i]? = some q → cyc.length ≤ i + fuel →
      subChainFrom heap h fuel q = (cyc.drop i).filterMap (fun p => heap[p]?) := by
  intro fuel
  induction fuel with
  | zero =>
    intro i q hi hlen
    have := (List.getElem?_eq_some.1 hi).1
    omega
  | succ k ih =>
    intro i q hi hlen
    obtain ⟨hik, hiq⟩ := List.getElem?_eq_some.1 hi
    obtain ⟨nd, hnd, hnext, _⟩ := hr.2 i q hi
    rw [List.drop_eq_getElem_cons hik, hiq, List.filterMap_cons, hnd]
    simp only [subChainFrom, hnd]
    congr 1
    by_cases hlast : i + 1 = cyc.length
    · rw [if_pos hlast, hh] at hnext
      rw [if_pos hnext, List.drop_eq_nil_of_le (by omega)]
      rfl
    · rw [if_neg hlast] at hnext
      have hlt : i + 1 < cyc.length := by omega
      have hq1 : cyc[i + 1]? = some cyc[i + 1] := List.getElem?_eq_getElem hlt
      rw [hq1] at hnext
      have hne : ¬ (nd.next = some h) := by
        intro e
        rw [hnext, ← hh, ← hq1] at e
        have := List.getElem?_inj hlt hr.1 e
        omega
      rw [if_neg hne, hnext]
      exact ih (i + 1) _ hq1 (by omega)

theorem IsRing.filterMap_length {heap : List SubChainNode} (l : List Nat)
    (hl : ∀ q ∈ l, q < heap.length) :
    (l.filterMap (fun p => heap[p]?)).length = l.length := by
  induction l with
  | nil => rfl
  | cons a as ih =>
    have hlt : a < heap.length := hl a (List.mem_cons_self _ _)
    have ha : heap[a]? = some heap[a] := List.getElem?_eq_getElem hlt
    rw [List.filterMap_cons, ha]
    simp only [List.length_cons]
    rw [ih (fun q hq => hl q (List.mem_cons_of_mem _ hq))]

theorem SubChainWF.length_eq {st : State} {mc : MainChainNode} {cyc : List Nat}
    (hwf : SubChainWF st.subs mc cyc) : (subChainOf st mc).length = cyc.length := by
  obtain ⟨hr, hhead⟩ := hwf
  by_cases hnil : cyc = []
  · subst hnil
    have hsc : mc.sub_chain = none := by simpa using hhead
    simp [subChainOf, hsc]
  · have hpos : 0 < cyc.length := List.length_pos.2 hnil
    obtain ⟨h, hh⟩ : ∃ h, cyc[0]? = some h := ⟨_, List.getElem?_eq_getElem hpos⟩
    have hsc : mc.sub_chain = some h := by rw [hhead, List.head?_eq_getElem?, hh]
    simp only [subChainOf, hsc]
    rw [hr.traverse h hh st.subs.length 0 h hh (by have := hr.length_le; omega)]
    simp only [List.drop_zero]
    exact IsRing.filterMap_length cyc hr.lt

theorem ex2_ring : SubChainWF ex2.subs ⟨some 0, 4096, 4096⟩ [0, 1] := by
  refine ⟨⟨by decide, ?_⟩, rfl⟩
  intro i p hi
  have hlt : i < 2 := (List.getElem?_eq_some.1 hi).1
  interval_cases i
  · simp at hi; subst hi; exact ⟨_, rfl, rfl, rfl⟩
  · simp at hi; subst hi; exact ⟨_, rfl, rfl, rfl⟩

/-- Claim C20, circular doubly-linked well-formedness: if the sub-chain of a main-chain
node is empty or a circular doubly-linked ring from its head, then `add_segment` on that
node returns, the sub-chain is again such a ring, it has exactly one more node (the fresh
one, placed last), the head is unchanged (the new node if the chain was empty), the new
node is `prev` of the head, and every node `q` of the ring satisfies `q->next->prev == q`
and `q->prev->next == q`. -/
theorem add_segment_keeps_ring (st : State) (p size : Nat) (mc : MainChainNode)
    (cyc : List Nat) (hmc : loadMain st p = some mc) (hwf : SubChainWF st.subs mc cyc) :
    ∃ st1 mc1, add_segment st p size = .ok st1 ∧ loadMain st1 p = some mc1 ∧
      SubChainWF st1.subs mc1 (cyc ++ [st.subs.length]) ∧
      (subChainOf st1 mc1).length = (subChainOf st mc).length + 1 ∧
      mc1.sub_chain = (if cyc = [] then some st.subs.length else mc.sub_chain) ∧
      (∃ hd, loadSub st1.subs mc1.sub_chain = some hd ∧ hd.prev = some st.subs.length) ∧
      ∀ q ∈ cyc ++ [st.subs.length], Linked st1.subs q := by
  have hlen0 := hwf.length_eq
  obtain ⟨hr, hhead⟩ := hwf
  by_cases hnil : cyc = []
  · subst hnil
    have hsc : mc.sub_chain = none := by simpa using hhead
    have hring : IsRing (st.subs ++
        [({ start_address := st.start_mems_virtual_address, size := size, type := .HOLE,
            prev := some st.subs.length, next := some st.subs.length } : SubChainNode)])
        [st.subs.length] := isRing_single _ _ rfl rfl
    have hlen1 := SubChainWF.length_eq (show SubChainWF
      (storeMain { st with subs := st.subs ++
        [({ start_address := st.start_mems_virtual_address, size := size, type := .HOLE,
            prev := some st.subs.length, next := some st.subs.length } : SubChainNode)] } p
        { mc with sub_chain := some st.subs.length }).subs
      { mc with sub_chain := some st.subs.length } [st.subs.length] from ⟨hring, rfl⟩)
    refine ⟨_, _, add_segment_empty st p size mc hmc hsc, loadMain_storeMain _ _ _,
      ⟨hring, rfl⟩, by rw [hlen1, hlen0]; rfl, rfl,
      ⟨{ start_address := st.start_mems_virtual_address, size := size, type := .HOLE,
         prev := some st.subs.length, next := some st.subs.length }, ?_, rfl⟩, hring.linked⟩
    simp [storeMain, loadSub]
  · have hpos : 0 < cyc.length := List.length_pos.2 hnil
    obtain ⟨h, hh⟩ : ∃ h, cyc[0]? = some h := ⟨_, List.getElem?_eq_getElem hpos⟩
    obtain ⟨t, ht⟩ : ∃ t, cyc[cyc.length - 1]? = some t :=
      ⟨_, List.getElem?_eq_getElem (by omega)⟩
    have hsc : mc.sub_chain = some h := by rw [hhead, List.head?_eq_getElem?, hh]
    obtain ⟨hd, hhd, _, hprev⟩ := hr.2 0 h hh
    rw [if_pos rfl, ht] at hprev
    obtain ⟨tl, htl, _, _⟩ := hr.2 _ t ht
    obtain ⟨heap3, hadd, hq⟩ := add_segment_nonempty st p size mc h t hd tl hmc hsc hhd hprev htl
    have hring : IsRing heap3 (cyc ++ [st.subs.length]) :=
      isRing_extend st.subs heap3 cyc h t _ hr hpos hh ht rfl rfl hq
    have hhn : h ≠ st.subs.length := by
      have := (List.getElem?_eq_some.1 hhd).1
      omega
    have hwf1 : SubChainWF ({ st with subs := heap3 } : State).subs mc
        (cyc ++ [st.subs.length]) :=
      ⟨hring, by rw [hsc, List.head?_eq_getElem?, List.getElem?_append_left hpos, hh]⟩
    refine ⟨_, mc, hadd, hmc, hwf1, by rw [hwf1.length_eq, hlen0]; simp,
      by rw [if_neg hnil], ?_, hring.linked⟩
    · refine ⟨{ hd with next := if h = t then some st.subs.length else hd.next,
                        prev := some st.subs.length }, ?_, rfl⟩
      rw [hsc]
      show heap3[h]? = _
      rw [hq h, if_neg hhn, hhd]
      simp

/-- Witness of C20: `add_segment` on the main-chain node of the state reached by
`mems_init`, `mems_malloc(100)`, `mems_malloc(50)`, whose sub-chain is the ring `[0, 1]`. -/
theorem add_segment_keeps_ring_witness :
    loadMain ex2 4096 = some ⟨some 0, 4096, 4096⟩ ∧
    SubChainWF ex2.subs ⟨some 0, 4096, 4096⟩ [0, 1] ∧
    ∃ st1 mc1, add_segment ex2 4096 90 = .ok st1 ∧ loadMain st1 4096 = some mc1 ∧
      SubChainWF st1.subs mc1 ([0, 1] ++ [ex2.subs.length]) ∧
      (subChainOf st1 mc1).length = (subChainOf ex2 ⟨some 0, 4096, 4096⟩).length + 1 ∧
      mc1.sub_chain = (if [0, 1] = [] then some ex2.subs.length else some 0) ∧
      (∃ hd, loadSub st1.subs mc1.sub_chain = some hd ∧ hd.prev = some ex2.subs.length) ∧
      ∀ q ∈ [0, 1] ++ [ex2.subs.length], Linked st1.subs q :=
  ⟨by decide, ex2_ring,
    add_segment_keeps_ring ex2 4096 90 ⟨some 0, 4096, 4096⟩ [0, 1] (by decide) ex2_ring⟩

end MeMS
